import Mathlib

/-!
Verification of the Field-Measure polygon drawing tool.

This file gives a shallow embedding of the interaction core of
`src/components/Map.tsx`, of the elevation relay endpoint
`src/pages/api/elevation.ts`, and of the color utility
`src/unnamed/part_001` (`interpolateColor`), and proves or refutes the
frozen claims about them.

Modelling conventions:
- JavaScript `number` is modelled by `ℝ` (or, for the purely
  rational-arithmetic parts, by an arbitrary `LinearOrderedField`, of
  which `ℝ` is an instance, so all theorems stated over a general field
  cover the real-number program semantics).
- React `useState` cells become fields of an explicit `MapState`
  record; each event handler becomes a state-transition function.
- Presentational effects (marker icons, CSS, popups, the legend
  control, `onAreaUpdate` callbacks, `alert` text) are not modelled;
  the displayed area is modelled as the square-meter value handed to
  `updateAreaSize`, whose unit conversion and `toFixed` formatting are
  presentation.
- Loops whose termination is not structural (the grid-sampling `for`
  loops of `createAnalysisGrid`, which mutate their counter by a
  computed step) are embedded with an explicit fuel parameter; `none`
  means the loop did not finish within the given fuel, and a result
  that is `none` for every fuel is a non-terminating run.
-/

namespace FieldMeasure

/-- A geographic coordinate, `{lat, lng}` (degrees), as in the `Vertex`
interface of `Map.tsx` and Leaflet's `L.LatLng`. -/
structure Pt (α : Type) where
  lat : α
  lng : α
deriving DecidableEq, Repr

/-- A lat/lng bounding box, as returned by Leaflet's
`polygon.getBounds()` (`getSouth`/`getNorth`/`getWest`/`getEast`). -/
structure Bounds (α : Type) where
  south : α
  north : α
  west : α
  east : α
deriving DecidableEq, Repr

/-- Bounding box of a ring: the componentwise min/max of its
coordinates, as Leaflet's `getBounds()` computes for a polygon layer.
The empty case is unreachable at the call sites (a layer always has a
ring). -/
def ringBounds [LinearOrderedField α] (ring : List (Pt α)) : Bounds α :=
  match ring with
  | [] => ⟨0, 0, 0, 0⟩
  | q :: qs =>
    { south := qs.foldl (fun a r => min a r.lat) q.lat
      north := qs.foldl (fun a r => max a r.lat) q.lat
      west := qs.foldl (fun a r => min a r.lng) q.lng
      east := qs.foldl (fun a r => max a r.lng) q.lng }

/-- `getClosestPointOnSegment` from `Map.tsx` (lines 1488-1523):
orthogonal projection of `p` onto the segment `a`-`b` in planar
(lat,lng) coordinates, clamped to the segment; for a degenerate
segment (`len_sq === 0`) the parameter stays `-1` and the start point
is returned. -/
def getClosestPointOnSegment [LinearOrderedField α] (p a b : Pt α) : Pt α :=
  let A := p.lat - a.lat
  let B := p.lng - a.lng
  let C := b.lat - a.lat
  let D := b.lng - a.lng
  let dot := A * C + B * D
  let lenSq := C * C + D * D
  let param := if lenSq = 0 then (-1 : α) else dot / lenSq
  if param < 0 then ⟨a.lat, a.lng⟩
  else if 1 < param then ⟨b.lat, b.lng⟩
  else ⟨a.lat + param * C, a.lng + param * D⟩

/-- `isPointInPolygon` from `Map.tsx` (lines 1012-1026): ray-casting
parity test over planar (lat,lng) coordinates, `x` being `lat` and `y`
being `lng`; `j` is the previous index, starting at `length - 1`.
JavaScript's `&&` evaluates the division only when the parity guard
holds, in which case `yj - yi ≠ 0`, so the total field division here
agrees with the JavaScript division at every evaluated point. -/
def isPointInPolygon [LinearOrderedField α] (point : Pt α) (polygon : List (Pt α)) : Bool :=
  let n := polygon.length
  (List.range n).foldl (fun inside i =>
    let j := if i = 0 then n - 1 else i - 1
    let xi := (polygon.getD i ⟨0, 0⟩).lat
    let yi := (polygon.getD i ⟨0, 0⟩).lng
    let xj := (polygon.getD j ⟨0, 0⟩).lat
    let yj := (polygon.getD j ⟨0, 0⟩).lng
    let intersect :=
      (decide (point.lng < yi) != decide (point.lng < yj)) &&
      decide (point.lat < (xj - xi) * (point.lng - yi) / (yj - yi) + xi)
    if intersect then !inside else inside) false

/-- Inner `for (let lng = west; lng <= east; lng += lngStep)` loop of
`createAnalysisGrid` (`Map.tsx` lines 999-1006), with fuel: each
iteration tests the loop condition, conditionally collects the grid
point, and advances `lng` by `lngStep`.  `none` means the fuel was
exhausted before the loop condition failed. -/
def gridInnerLoop [LinearOrderedField α] (ring : List (Pt α)) (lat east lngStep : α) :
    ℕ → α → List (Pt α) → Option (List (Pt α))
  | 0, _, _ => none
  | fuel + 1, lng, acc =>
    if lng ≤ east then
      gridInnerLoop ring lat east lngStep fuel (lng + lngStep)
        (acc ++ if isPointInPolygon ⟨lat, lng⟩ ring then [⟨lat, lng⟩] else [])
    else some acc

/-- Outer `for (let lat = south; lat <= north; lat += latStep)` loop of
`createAnalysisGrid`, with fuel; each iteration runs the inner loop in
full. -/
def gridOuterLoop [LinearOrderedField α] (ring : List (Pt α))
    (north west east latStep lngStep : α) :
    ℕ → α → List (Pt α) → Option (List (Pt α))
  | 0, _, _ => none
  | fuel + 1, lat, acc =>
    if lat ≤ north then
      match gridInnerLoop ring lat east lngStep (fuel + 1) west acc with
      | none => none
      | some acc1 => gridOuterLoop ring north west east latStep lngStep fuel (lat + latStep) acc1
    else some acc

/-- `createAnalysisGrid` from `Map.tsx` (lines 994-1009): steps the
bounding box into `density × density` cells and keeps the grid points
inside the ring, embedded with fuel because the loop counters advance
by the computed (possibly zero) steps. -/
def createAnalysisGridFuel [LinearOrderedField α] (fuel : ℕ) (bounds : Bounds α)
    (points : List (Pt α)) (density : α) : Option (List (Pt α)) :=
  let latStep := (bounds.north - bounds.south) / density
  let lngStep := (bounds.east - bounds.west) / density
  gridOuterLoop points bounds.north bounds.west bounds.east latStep lngStep fuel bounds.south []

/-- Chunking loop `for (let i = 0; i < gridPoints.length; i += chunkSize)`
with `chunkSize = 100` of `analyzeElevation` (`Map.tsx` lines 868-871). -/
def chunked100 {β : Type} : List β → List (List β)
  | [] => []
  | x :: xs => (x :: xs).take 100 :: chunked100 ((x :: xs).drop 100)
termination_by l => l.length
decreasing_by simp; omega

/-- `Math.min(...elevations)` over a list; the call site guarantees the
list is non-empty (`allElevationData.length === 0` aborts earlier). -/
def listMin [LinearOrderedField α] : List α → α
  | [] => 0
  | x :: xs => xs.foldl min x

/-- `Math.max(...elevations)` over a list; same non-emptiness caveat. -/
def listMax [LinearOrderedField α] : List α → α
  | [] => 0
  | x :: xs => xs.foldl max x

/-- JavaScript's `Math.atan2(y, x)`.  The haversine call sites only use
non-negative arguments, where the sign-of-zero subtleties of IEEE
floats do not matter. -/
noncomputable def atan2 (y x : ℝ) : ℝ :=
  if 0 < x then Real.arctan (y / x)
  else if x < 0 then
    (if 0 ≤ y then Real.arctan (y / x) + Real.pi else Real.arctan (y / x) - Real.pi)
  else if 0 < y then Real.pi / 2
  else if y < 0 then -(Real.pi / 2)
  else 0

/-- Modelled from the spec: `haversineDistance` of GeometryKernel
(spec section 4.1), "great-circle distance in meters between two
points".  `Map.tsx` realizes it as `clickPoint.distanceTo(point)`,
Leaflet's `L.CRS.Earth.distance` (haversine with Earth radius
6371000 m), whose formula this definition follows; the Leaflet source
itself is an external collaborator, not under `src/`.  Mathlib's
`Real.sqrt` clamps negative arguments to 0; the argument is
non-negative whenever both latitudes lie in [-90, 90]. -/
noncomputable def distanceTo (a b : Pt ℝ) : ℝ :=
  let rad := Real.pi / 180
  let lat1 := a.lat * rad
  let lat2 := b.lat * rad
  let sinDLat := Real.sin ((b.lat - a.lat) * rad / 2)
  let sinDLon := Real.sin ((b.lng - a.lng) * rad / 2)
  let h := sinDLat * sinDLat + Real.cos lat1 * Real.cos lat2 * sinDLon * sinDLon
  6371000 * (2 * atan2 (Real.sqrt h) (Real.sqrt (1 - h)))

/-- Modelled from the spec: `geodesicArea` of GeometryKernel (spec
section 4.1), "area enclosed by a closed ring of geographic points
accounting for Earth curvature ... 0 for fewer than 3 points ...
kernel must return absolute value".  `Map.tsx` realizes it as
`L.GeometryUtil.geodesicArea` of the leaflet-draw library (an external
collaborator, not under `src/`), whose spherical-excess formula with
radius 6378137 m this definition follows. -/
noncomputable def geodesicArea (ring : List (Pt ℝ)) : ℝ :=
  let n := ring.length
  if 2 < n then
    |((List.range n).foldl (fun a i =>
        let p1 := ring.getD i ⟨0, 0⟩
        let p2 := ring.getD ((i + 1) % n) ⟨0, 0⟩
        a + (p2.lng - p1.lng) * (Real.pi / 180) *
          (2 + Real.sin (p1.lat * (Real.pi / 180)) + Real.sin (p2.lat * (Real.pi / 180))))
      0) * 6378137 * 6378137 / 2|
  else 0

/-- Closest point of the `i`-th ring edge (from vertex `i` to vertex
`(i+1) % n`) to the click point, as computed inside the
`handleEdgeClick` loop (`Map.tsx` lines 1541-1545). -/
noncomputable def edgeProj (p : Pt ℝ) (vs : List (Pt ℝ)) (i : ℕ) : Pt ℝ :=
  getClosestPointOnSegment p (vs.getD i ⟨0, 0⟩) (vs.getD ((i + 1) % vs.length) ⟨0, 0⟩)

/-- Distance from the click point to its closest point on the `i`-th
ring edge (`clickPoint.distanceTo(point)`, `Map.tsx` line 1546). -/
noncomputable def edgeDist (p : Pt ℝ) (vs : List (Pt ℝ)) (i : ℕ) : ℝ :=
  distanceTo p (edgeProj p vs i)

/-- The closest-edge search loop of `handleEdgeClick` (`Map.tsx` lines
1537-1553).  The accumulator `some (minDistance, insertIndex,
closestPoint)` stands for the three mutable variables; the initial
`none` stands for `(Infinity, -1, null)`, and `distance < Infinity`
holds for every (finite) computed distance, so the first edge always
replaces the initial accumulator, as in the source. -/
noncomputable def edgeStep (p : Pt ℝ) (vs : List (Pt ℝ))
    (acc : Option (ℝ × ℕ × Pt ℝ)) (i : ℕ) : Option (ℝ × ℕ × Pt ℝ) :=
  let d := edgeDist p vs i
  match acc with
  | none => some (d, i + 1, edgeProj p vs i)
  | some (m, idx, cp) => if d < m then some (d, i + 1, edgeProj p vs i) else some (m, idx, cp)

/-- The whole closest-edge search of `handleEdgeClick`: the loop body
folded over the edge indices. -/
noncomputable def foldEdges (p : Pt ℝ) (vs : List (Pt ℝ)) : Option (ℝ × ℕ × Pt ℝ) :=
  (List.range vs.length).foldl (edgeStep p vs) none

/-- One colored elevation-overlay cell added by `analyzeElevation`
(`Map.tsx` lines 931-951): a small polygon layer flagged
`isElevationOverlay`, with its fill color. -/
structure OverlayCell (α : Type) where
  ring : List (Pt α)
  color : String
deriving DecidableEq, Repr

/-- A layer of the `drawnItems` feature group: either the drawn field
polygon or an elevation-overlay cell (the only two kinds of layer ever
added to `drawnItems`). -/
inductive DrawnLayer (α : Type) where
  | polyLayer (ring : List (Pt α))
  | cellLayer (cell : OverlayCell α)
deriving DecidableEq, Repr

/-- The ring (`layer.getLatLngs()[0]`) of a drawn layer. -/
def DrawnLayer.ring {α : Type} : DrawnLayer α → List (Pt α)
  | .polyLayer r => r
  | .cellLayer c => c.ring

/-- `layer.setLatLngs(r)` on a drawn layer. -/
def DrawnLayer.setRing {α : Type} : DrawnLayer α → List (Pt α) → DrawnLayer α
  | .polyLayer _, r => .polyLayer r
  | .cellLayer c, r => .cellLayer { c with ring := r }

/-- Whether a drawn layer is an elevation-overlay cell
(`(layer as any).isElevationOverlay`). -/
def DrawnLayer.isCell {α : Type} : DrawnLayer α → Bool
  | .polyLayer _ => false
  | .cellLayer _ => true

/-- An entry of the `undoStack` state.  `handleMapClick` pushes the
clicked point; `handleDrawCreated` pushes `layer.getLatLngs()[0] as
L.LatLng` — actually a whole ring cast to a point, a type confusion in
the source kept faithfully here.  The stack is write-only: no handler
ever reads it. -/
inductive UndoItem (α : Type) where
  | point (p : Pt α)
  | ringItem (r : List (Pt α))
deriving DecidableEq, Repr

/-- The state of the `Map` component relevant to the claims: the
`isDrawing`, `points`, `undoStack`, `redoStack` `useState` cells, the
square-meter value most recently handed to `updateAreaSize` (initially
the `'0'` display), the layers of the `drawnItems` feature group, and
the `.corner-count` DOM text (set to `'1'` by the mount effect).
Marker layers (vertex handles, distance labels) mirror `points` and
are presentational; `isEditing` is never set to `true` anywhere in the
source, so the `isEditing` block of `toggleDrawing` is dead code. -/
structure MapState (α : Type) where
  isDrawing : Bool
  points : List (Pt α)
  undoStack : List (UndoItem α)
  redoStack : List (Pt α)
  areaSize : α
  drawnItems : List (DrawnLayer α)
  cornerText : String
deriving DecidableEq, Repr

/-- The initial component state. -/
def initState : MapState ℝ :=
  { isDrawing := false, points := [], undoStack := [], redoStack := []
    areaSize := 0, drawnItems := [], cornerText := "1" }

/-- The user operations of the claims: toggle drawing on/off, map-click
append, undo, redo, vertex drag, edge click, clear. -/
inductive Op where
  | toggle
  | click (p : Pt ℝ)
  | undo
  | redo
  | drag (i : ℕ) (p : Pt ℝ)
  | edgeClick (p : Pt ℝ)
  | clear

/-- `toggleDrawing` (`Map.tsx` lines 1039-1077).  Starting a new
drawing resets the corner count display and empties `points` (and the
marker layers); stopping keeps everything.  Neither direction touches
`drawnItems`, the history stacks, or the displayed area. -/
noncomputable def stepToggle (st : MapState ℝ) : MapState ℝ :=
  if st.isDrawing then { st with isDrawing := false }
  else { st with isDrawing := true, cornerText := "1", points := [] }

/-- `handleMapClick` (`Map.tsx` lines 276-327): while drawing, append
the clicked point to `points` and to `undoStack`, clear `redoStack`;
if `drawnItems` is empty create the polygon layer with the single new
point, otherwise update the first layer's ring and, only when the new
list has more than 2 points, recompute the displayed area. -/
noncomputable def stepClick (st : MapState ℝ) (p : Pt ℝ) : MapState ℝ :=
  if st.isDrawing then
    let newPoints := st.points ++ [p]
    let st1 := { st with points := newPoints
                         undoStack := st.undoStack ++ [UndoItem.point p]
                         redoStack := [] }
    match st.drawnItems with
    | [] => { st1 with drawnItems := [DrawnLayer.polyLayer [p]], cornerText := "1" }
    | L :: rest =>
      if 2 < newPoints.length then
        { st1 with drawnItems := L.setRing newPoints :: rest
                   areaSize := geodesicArea newPoints
                   cornerText := toString newPoints.length }
      else
        { st1 with drawnItems := L.setRing newPoints :: rest, cornerText := "2" }
  else st

/-- `handleUndo` (`Map.tsx` lines 330-348): no-op on an empty `points`;
otherwise pop the last point into `redoStack` and, when a layer
exists, update its ring and the displayed area (0 below 3 points). -/
noncomputable def stepUndo (st : MapState ℝ) : MapState ℝ :=
  if st.points.isEmpty then st
  else
    let newPoints := st.points.dropLast
    let removed := st.points.getLastD ⟨0, 0⟩
    let st1 := { st with points := newPoints, redoStack := st.redoStack ++ [removed] }
    match st.drawnItems with
    | [] => st1
    | L :: rest =>
      { st1 with drawnItems := L.setRing newPoints :: rest
                 areaSize := if 2 < newPoints.length then geodesicArea newPoints else 0 }

/-- `handleRedo` (`Map.tsx` lines 351-369): no-op on an empty
`redoStack`; otherwise pop its last point, append it to `points` and,
when a layer exists, update its ring and the displayed area. -/
noncomputable def stepRedo (st : MapState ℝ) : MapState ℝ :=
  if st.redoStack.isEmpty then st
  else
    let point := st.redoStack.getLastD ⟨0, 0⟩
    let newPoints := st.points ++ [point]
    let st1 := { st with redoStack := st.redoStack.dropLast, points := newPoints }
    match st.drawnItems with
    | [] => st1
    | L :: rest =>
      { st1 with drawnItems := L.setRing newPoints :: rest
                 areaSize := geodesicArea newPoints }

/-- The vertex marker `drag` handler installed by
`addDraggableVertexMarkers` (`Map.tsx` lines 1273-1286): when a layer
exists, overwrite index `i` of the first layer's ring with the dragged
position and resync the layer ring, the displayed area and `points`.
A marker only exists for an in-range index of the ring it was created
from; `List.set` is a no-op out of range. -/
noncomputable def stepDrag (st : MapState ℝ) (i : ℕ) (p : Pt ℝ) : MapState ℝ :=
  match st.drawnItems with
  | [] => st
  | L :: rest =>
    let cur := L.ring.set i p
    { st with drawnItems := L.setRing cur :: rest
              areaSize := geodesicArea cur
              points := cur }

/-- `handleEdgeClick` (`Map.tsx` lines 1526-1571): ignored while
drawing or without a layer; otherwise run the closest-edge search over
the first layer's ring and, when the minimal distance is below 20
(meters), splice the closest projected point in at the minimizing
edge's `insertIndex`, updating the layer ring, `points`, the displayed
area and the corner-count text.  `redoStack` is not touched. -/
noncomputable def stepEdgeClick (st : MapState ℝ) (p : Pt ℝ) : MapState ℝ :=
  if st.isDrawing then st
  else
    match st.drawnItems with
    | [] => st
    | L :: rest =>
      let vs := L.ring
      match foldEdges p vs with
      | none => st
      | some (m, idx, cp) =>
        if m < 20 then
          let newVs := vs.insertIdx idx cp
          { st with drawnItems := L.setRing newVs :: rest
                    points := newVs
                    areaSize := geodesicArea newVs
                    cornerText := toString newVs.length }
        else st

/-- `handleDelete` (`Map.tsx` lines 1152-1182): clear every layer of
`drawnItems` and every marker, empty `points` and both history stacks,
display area 0 and corner count `'0'`.  `isDrawing` is untouched. -/
noncomputable def stepClear (st : MapState ℝ) : MapState ℝ :=
  { st with drawnItems := [], points := [], undoStack := [], redoStack := []
            areaSize := 0, cornerText := "0" }

/-- One user operation applied to the component state. -/
noncomputable def stepOp (st : MapState ℝ) : Op → MapState ℝ
  | .toggle => stepToggle st
  | .click p => stepClick st p
  | .undo => stepUndo st
  | .redo => stepRedo st
  | .drag i p => stepDrag st i p
  | .edgeClick p => stepEdgeClick st p
  | .clear => stepClear st

/-- Run a sequence of user operations from the initial state. -/
noncomputable def runOps (ops : List Op) : MapState ℝ :=
  ops.foldl stepOp initState

/-- `handleDrawCreated` (`Map.tsx` lines 702-717): the leaflet-draw
`CREATED` event handler appends the drawn polygon as a new layer,
pushes the (ring-as-point, see `UndoItem`) entry onto `undoStack`,
clears `redoStack` and recomputes the displayed area from the drawn
ring; `points` is not updated. -/
noncomputable def stepDrawCreated (st : MapState ℝ) (ring : List (Pt ℝ)) : MapState ℝ :=
  { st with drawnItems := st.drawnItems ++ [DrawnLayer.polyLayer ring]
            undoStack := st.undoStack ++ [UndoItem.ringItem ring]
            redoStack := []
            areaSize := geodesicArea ring }

/-- JavaScript falsy-or-non-string test used by the `interpolateColor`
guard (`!color1 || typeof color1 !== 'string'`): `none` models any
missing or non-string value (either branch of the guard catches it),
`some ""` is the falsy empty string. -/
def jsFalsyStr : Option String → Bool
  | none => true
  | some s => s.isEmpty

/-- Helper for `String.prototype.replace(pattern, '')` with the
one-character pattern `'#'`: drop the first occurrence. -/
def replaceFirstHashAux : List Char → List Char
  | [] => []
  | c :: cs => if c = '#' then cs else c :: replaceFirstHashAux cs

/-- `s.replace('#', '')`: removes the first `'#'` of the string. -/
def replaceFirstHash (s : String) : String :=
  String.mk (replaceFirstHashAux s.toList)

/-- `s.padEnd(6, '0')`. -/
def padEndSix (s : String) : String :=
  s ++ String.mk (List.replicate (6 - s.length) '0')

/-- `s.slice(a, a + 2)`. -/
def sliceTwo (s : String) (a : ℕ) : String :=
  String.mk ((s.toList.drop a).take 2)

/-- `s.padStart(2, '0')`. -/
def padStartTwo (s : String) : String :=
  String.mk (List.replicate (2 - s.length) '0') ++ s

/-- Value of one hexadecimal digit character, if it is one. -/
def hexDigitVal (c : Char) : Option ℕ :=
  if '0' ≤ c ∧ c ≤ '9' then some (c.toNat - 48)
  else if 'a' ≤ c ∧ c ≤ 'f' then some (c.toNat - 87)
  else if 'A' ≤ c ∧ c ≤ 'F' then some (c.toNat - 55)
  else none

/-- Longest prefix of hexadecimal digit values. -/
def takeHexDigits : List Char → List ℕ
  | [] => []
  | c :: cs =>
    match hexDigitVal c with
    | some d => d :: takeHexDigits cs
    | none => []

/-- JavaScript `parseInt(s, 16)`: trim leading whitespace, optional
sign, optional `0x`/`0X` prefix, then the longest prefix of hex
digits; `none` models the `NaN` returned when no digit is found. -/
def parseIntHex (s : String) : Option ℤ :=
  let l := s.toList.dropWhile fun c => c = ' ' || c = '\t' || c = '\n' || c = '\r'
  let signAndRest : ℤ × List Char :=
    match l with
    | '+' :: rest => (1, rest)
    | '-' :: rest => (-1, rest)
    | _ => (1, l)
  let l2 : List Char :=
    match signAndRest.2 with
    | '0' :: 'x' :: rest => rest
    | '0' :: 'X' :: rest => rest
    | _ => signAndRest.2
  let ds := takeHexDigits l2
  if ds.isEmpty then none
  else some (signAndRest.1 * ((ds.foldl (fun a d => 16 * a + d) 0 : ℕ) : ℤ))

/-- JavaScript number addition with `NaN` (`none`) propagation. -/
def jadd [LinearOrderedField α] : Option α → Option α → Option α
  | none, _ => none
  | _, none => none
  | some a, some b => some (a + b)

/-- JavaScript number subtraction with `NaN` propagation. -/
def jsub [LinearOrderedField α] : Option α → Option α → Option α
  | none, _ => none
  | _, none => none
  | some a, some b => some (a - b)

/-- JavaScript number multiplication with `NaN` propagation. -/
def jmul [LinearOrderedField α] : Option α → Option α → Option α
  | none, _ => none
  | _, none => none
  | some a, some b => some (a * b)

/-- `Math.round` with `NaN` propagation: half-way cases round toward
positive infinity, `Math.round(x) = ⌊x + 0.5⌋`. -/
def jsRound [LinearOrderedField α] [FloorRing α] : Option α → Option ℤ
  | none => none
  | some x => some ⌊x + 1 / 2⌋

/-- Lowercase hexadecimal digits of a natural number, as
`n.toString(16)` renders non-negative integers. -/
def natHex (n : ℕ) : String :=
  String.mk (Nat.toDigits 16 n)

/-- JavaScript `v.toString(16)` on the (integral or `NaN`) channel
value: `NaN` renders as the string `"NaN"`, negatives with a leading
minus sign. -/
def toStringHexJS : Option ℤ → String
  | none => "NaN"
  | some n => if n < 0 then "-" ++ natHex n.natAbs else natHex n.toNat

/-- Channel value parsed from two hex characters of the padded color
string, cast into the number field. -/
def channelAt [LinearOrderedField α] (s : String) (a : ℕ) : Option α :=
  (parseIntHex (sliceTwo s a)).map fun z => (z : α)

namespace ColorUtils

/-- `interpolateColor` exported from the color utility module
(`src/unnamed/part_001`): guard against missing/non-string inputs,
strip `#`, pad to 6 characters, parse the three channels in base 16,
interpolate linearly, round, and render as `#rrggbb`.  No step of the
`try` block can throw for string inputs, so the `catch` branch is
unreachable and not modelled. -/
def interpolateColor [LinearOrderedField α] [FloorRing α]
    (color1 color2 : Option String) (t : α) : String :=
  if jsFalsyStr color1 || jsFalsyStr color2 then "#ff0000"
  else
    let c1 := padEndSix (replaceFirstHash (color1.getD ""))
    let c2 := padEndSix (replaceFirstHash (color2.getD ""))
    let r1 : Option α := channelAt c1 0
    let g1 : Option α := channelAt c1 2
    let b1 : Option α := channelAt c1 4
    let r2 : Option α := channelAt c2 0
    let g2 : Option α := channelAt c2 2
    let b2 : Option α := channelAt c2 4
    let r := jsRound (jadd r1 (jmul (jsub r2 r1) (some t)))
    let g := jsRound (jadd g1 (jmul (jsub g2 g1) (some t)))
    let b := jsRound (jadd b1 (jmul (jsub b2 b1) (some t)))
    "#" ++ padStartTwo (toStringHexJS r) ++ padStartTwo (toStringHexJS g) ++
      padStartTwo (toStringHexJS b)

end ColorUtils

namespace MapLocal

/-- The `interpolateColor` constant defined locally inside the `Map`
component (`Map.tsx` lines 755-783), which shadows the imported one
inside the component body and is the copy actually called by
`getElevationColor` and `analyzeElevation`.  Its source text is
line-for-line the same as the module copy. -/
def interpolateColor [LinearOrderedField α] [FloorRing α]
    (color1 color2 : Option String) (t : α) : String :=
  if jsFalsyStr color1 || jsFalsyStr color2 then "#ff0000"
  else
    let c1 := padEndSix (replaceFirstHash (color1.getD ""))
    let c2 := padEndSix (replaceFirstHash (color2.getD ""))
    let r1 : Option α := channelAt c1 0
    let g1 : Option α := channelAt c1 2
    let b1 : Option α := channelAt c1 4
    let r2 : Option α := channelAt c2 0
    let g2 : Option α := channelAt c2 2
    let b2 : Option α := channelAt c2 4
    let r := jsRound (jadd r1 (jmul (jsub r2 r1) (some t)))
    let g := jsRound (jadd g1 (jmul (jsub g2 g1) (some t)))
    let b := jsRound (jadd b1 (jmul (jsub b2 b1) (some t)))
    "#" ++ padStartTwo (toStringHexJS r) ++ padStartTwo (toStringHexJS g) ++
      padStartTwo (toStringHexJS b)

end MapLocal

/-- The observable outcome of one `fetch('/api/elevation', ...)` call
during `analyzeElevation`: the HTTP `response.ok` flag and the
`data.results` field of the JSON body (`none` models a missing or
non-array `results`; the listed numbers are the `elevation` fields of
the result objects). -/
structure ChunkResp (α : Type) where
  ok : Bool
  results : Option (List α)
deriving DecidableEq

/-- The chunked fetch loop of `analyzeElevation` (`Map.tsx` lines
871-905): one relay call per 100-point chunk, in order; a non-ok
response or a malformed body throws, aborting the loop (and with it
the whole analysis); otherwise the chunk's elevations are paired with
the chunk's grid points by position (`chunk[index]`; an out-of-range
index is JavaScript `undefined`, modelled by the origin default) and
concatenated in submission order. -/
def fetchChunks [LinearOrderedField α] :
    List (List (Pt α)) → (ℕ → ChunkResp α) → ℕ → Except String (List (α × Pt α))
  | [], _, _ => .ok []
  | chunk :: rest, resp, i =>
    let r := resp i
    if r.ok then
      match r.results with
      | none => .error "Invalid elevation data format"
      | some elevs =>
        match fetchChunks rest resp (i + 1) with
        | .error e => .error e
        | .ok acc => .ok ((elevs.enum.map fun ei => (ei.2, chunk.getD ei.1 ⟨0, 0⟩)) ++ acc)
    else .error "Failed to fetch elevation data"

/-- The elevation-visualization cells built on success (`Map.tsx` lines
926-953): for every datum except past the second-to-last grid index, a
quadrilateral cell over neighbouring grid points, colored by the local
`interpolateColor` between the lowest-elevation and highest-elevation
ramp colors.  When `max = min` the JavaScript ratio is `NaN` whereas
the field division yields 0; the claims never evaluate a cell color on
flat terrain. -/
def buildCells [LinearOrderedField α] [FloorRing α] (grid : List (Pt α))
    (dataL : List (α × Pt α)) (mn mx : α) : List (OverlayCell α) :=
  dataL.enum.filterMap fun ie =>
    if ie.1 < grid.length - 1 then
      some { ring := [ie.2.2, grid.getD (ie.1 + 1) ⟨0, 0⟩,
                      grid.getD (min (ie.1 + 11) (grid.length - 1)) ⟨0, 0⟩,
                      grid.getD (min (ie.1 + 10) (grid.length - 1)) ⟨0, 0⟩]
             color := MapLocal.interpolateColor (some "#2b83ba") (some "#d7191c")
               ((ie.2.1 - mn) / (mx - mn)) }
    else none

/-- `analyzeElevation` (`Map.tsx` lines 845-991).  With no layer the
handler alerts and returns; a missing API key throws, caught by the
handler; then the last layer's ring is sampled into a grid (with fuel,
`none` = the sampling loops never finish), the grid is fetched in
chunks, and only if every chunk succeeds are the statistics computed,
the previous overlay cells removed and the new cells appended.  Every
caught failure leaves the state exactly as it was (`some st`).
`points`, `areaSize` and the history stacks are never written. -/
def analyzeElevationModel [LinearOrderedField α] [FloorRing α] (st : MapState α)
    (apiKey : Option String) (fuel : ℕ) (resp : ℕ → ChunkResp α) : Option (MapState α) :=
  match st.drawnItems.getLast? with
  | none => some st
  | some L =>
    if (apiKey.getD "").isEmpty then some st
    else
      match createAnalysisGridFuel fuel (ringBounds L.ring) L.ring 5 with
      | none => none
      | some gridPoints =>
        match fetchChunks (chunked100 gridPoints) resp 0 with
        | .error _ => some st
        | .ok allData =>
          if allData.isEmpty then some st
          else
            let elevations := allData.map Prod.fst
            some { st with drawnItems :=
              st.drawnItems.filter (fun l => !l.isCell) ++
                (buildCells gridPoints allData (listMin elevations)
                  (listMax elevations)).map DrawnLayer.cellLayer }

/-- The `points` field of the relay request body as the handler sees
it: absent/falsy, present but not an array, or an array of
coordinates. -/
inductive PointsField (α : Type) where
  | missing
  | notArray
  | array (pts : List (Pt α))
deriving DecidableEq

/-- Whether the `points` field passes the handler's validation
(`!points || !Array.isArray(points) || points.length === 0`). -/
def PointsField.passes {α : Type} : PointsField α → Bool
  | .array (_ :: _) => true
  | _ => false

/-- One elevation result object of the upstream provider payload. -/
structure ElevResult (α : Type) where
  elevation : α
  location : Pt α
deriving DecidableEq

/-- The behaviour of the upstream elevation provider for the one call
the handler makes: the `fetch`/`json()` chain throws, or a JSON reply
with a `status` string, an optional `results` array and an optional
`error_message`. -/
inductive Upstream (α : Type) where
  | netFailure (msg : String)
  | reply (status : String) (results : Option (List (ElevResult α))) (errorMessage : Option String)
deriving DecidableEq

/-- The JSON body shapes the handler responds with. -/
inductive RespBody (α : Type) where
  | msgOnly (message : String)
  | msgErr (message error : String)
  | payload (status : String) (results : Option (List (ElevResult α))) (errorMessage : Option String)
deriving DecidableEq

/-- The relay endpoint `src/pages/api/elevation.ts`: reject non-POST
with 405; 400 for missing/non-array/empty `points` and for a falsy
`apiKey`; forward to the provider and return its payload with 200 only
when `data.status === 'OK' && data.results` holds, else 500 with
`{message, error}`; a thrown fetch/parse error is caught into 500 with
`{message, error}`. -/
def elevationHandler [LinearOrderedField α] (method : String) (points : PointsField α)
    (apiKey : Option String) (upstream : Upstream α) : ℕ × RespBody α :=
  if method ≠ "POST" then (405, .msgOnly "Method not allowed")
  else
    match points with
    | .missing => (400, .msgOnly "Invalid points data")
    | .notArray => (400, .msgOnly "Invalid points data")
    | .array pts =>
      if pts.length = 0 then (400, .msgOnly "Invalid points data")
      else if (apiKey.getD "").isEmpty then (400, .msgOnly "API key is required")
      else
        match upstream with
        | .netFailure m => (500, .msgErr "Failed to fetch elevation data" m)
        | .reply status results errMsg =>
          if status = "OK" then
            match results with
            | some rs => (200, .payload status (some rs) errMsg)
            | none => (500, .msgErr "Failed to get elevation data" (errMsg.getD "Unknown error"))
          else (500, .msgErr "Failed to get elevation data" (errMsg.getD "Unknown error"))

/-- Operation sequence that restarts a drawing after a completed ring:
draw three vertices, stop, then start a new drawing (which empties the
vertex list). -/
noncomputable def opsRestart : List Op :=
  [.toggle, .click ⟨90, 0⟩, .click ⟨0, 0⟩, .click ⟨0, 1⟩, .toggle, .toggle]

/-- Operation sequence drawing a triangle and stopping. -/
noncomputable def opsTriangle : List Op :=
  [.toggle, .click ⟨0, 0⟩, .click ⟨0, 1⟩, .click ⟨1, 0⟩, .toggle]

/-- Operation sequence for the redo-stack counterexample: draw a
square, stop, undo once (making the redo stack non-empty), then
edge-click exactly on the first vertex of the remaining ring. -/
noncomputable def opsEdgeAfterUndo : List Op :=
  [.toggle, .click ⟨0, 0⟩, .click ⟨0, 1⟩, .click ⟨1, 1⟩, .click ⟨1, 0⟩,
   .toggle, .undo, .edgeClick ⟨0, 0⟩]

/-- A unit square ring (degrees). -/
def sqRing : List (Pt ℝ) := [⟨0, 0⟩, ⟨0, 1⟩, ⟨1, 1⟩, ⟨1, 0⟩]

/-- A component state holding the unit square as the drawn polygon,
not in drawing mode. -/
def stSquare : MapState ℝ :=
  { isDrawing := false, points := sqRing, undoStack := [], redoStack := []
    areaSize := 0, drawnItems := [DrawnLayer.polyLayer sqRing], cornerText := "4" }

/-- A 5-degree square ring used to exercise the elevation analysis. -/
def sq5Ring : List (Pt ℝ) := [⟨0, 0⟩, ⟨0, 5⟩, ⟨5, 5⟩, ⟨5, 0⟩]

/-- A component state with the 5-degree square drawn and ready for
analysis. -/
def stAnalysis : MapState ℝ :=
  { isDrawing := false, points := [⟨0, 0⟩, ⟨0, 5⟩, ⟨5, 5⟩, ⟨5, 0⟩]
    undoStack := [], redoStack := [], areaSize := 0
    drawnItems := [DrawnLayer.polyLayer [⟨0, 0⟩, ⟨0, 5⟩, ⟨5, 5⟩, ⟨5, 0⟩]]
    cornerText := "4" }

/-- A relay environment whose every call returns HTTP 500
(`response.ok = false`). -/
def respAllFail : ℕ → ChunkResp ℝ := fun _ => ⟨false, none⟩

/-- A degenerate single-point ring (all three vertices equal), whose
bounding box has zero extent in both directions. -/
def degenerateRing : List (Pt ℝ) := [⟨0, 0⟩, ⟨0, 0⟩, ⟨0, 0⟩]

/-- The state-machine invariant used to settle the area-consistency
claim: the displayed area agrees with the geodesic area of `points`
whenever there are at least 3 of them; it is always either 0 or the
geodesic area of some ring of at least 3 vertices; and without drawn
layers both `points` and `redoStack` are empty. -/
def stateInv (st : MapState ℝ) : Prop :=
  (3 ≤ st.points.length → st.areaSize = geodesicArea st.points) ∧
  (st.areaSize = 0 ∨ ∃ l : List (Pt ℝ), 3 ≤ l.length ∧ st.areaSize = geodesicArea l) ∧
  (st.drawnItems = [] → st.points = [] ∧ st.redoStack = [])

theorem geodesicArea_short (ring : List (Pt ℝ)) (h : ring.length ≤ 2) :
    geodesicArea ring = 0 := by
  unfold geodesicArea
  rw [if_neg]
  omega

theorem arctan_nonneg_of_nonneg (t : ℝ) (ht : 0 ≤ t) : 0 ≤ Real.arctan t := by
  have h := Real.arctan_strictMono.monotone ht
  rwa [Real.arctan_zero] at h

theorem atan2_nonneg (y x : ℝ) (hy : 0 ≤ y) : 0 ≤ atan2 y x := by
  unfold atan2
  split_ifs with h1 h2 h3 h4
  · exact arctan_nonneg_of_nonneg _ (div_nonneg hy h1.le)
  all_goals linarith [Real.neg_pi_div_two_lt_arctan (y / x), Real.pi_pos]

theorem distanceTo_nonneg (a b : Pt ℝ) : 0 ≤ distanceTo a b := by
  simp only [distanceTo]
  refine mul_nonneg (by norm_num) (mul_nonneg (by norm_num) ?_)
  exact atan2_nonneg _ _ (Real.sqrt_nonneg _)

theorem distanceTo_self (p : Pt ℝ) : distanceTo p p = 0 := by
  simp [distanceTo, atan2, sub_self, Real.sin_zero, Real.sqrt_zero, Real.sqrt_one,
    Real.arctan_zero]

theorem closestPoint_self [LinearOrderedField α] (p b : Pt α)
    (h : (b.lat - p.lat) * (b.lat - p.lat) + (b.lng - p.lng) * (b.lng - p.lng) ≠ 0) :
    getClosestPointOnSegment p p b = p := by
  simp only [getClosestPointOnSegment, sub_self, zero_mul, mul_zero, add_zero, zero_add,
    zero_div, if_neg h]
  split_ifs with h1 h2
  · rfl
  · exact absurd h2 (by norm_num)
  · rfl

theorem foldEdges_spec (p : Pt ℝ) (vs : List (Pt ℝ)) (hvs : vs ≠ []) :
    ∃ j, j < vs.length ∧
      foldEdges p vs = some (edgeDist p vs j, j + 1, edgeProj p vs j) ∧
      (∀ k, k < j → edgeDist p vs j < edgeDist p vs k) ∧
      (∀ k, k < vs.length → edgeDist p vs j ≤ edgeDist p vs k) := by
  have hn : 0 < vs.length := List.length_pos.mpr hvs
  unfold foldEdges
  have key : ∀ n, 0 < n →
      ∃ j, j < n ∧
        (List.range n).foldl (edgeStep p vs) none =
          some (edgeDist p vs j, j + 1, edgeProj p vs j) ∧
        (∀ k, k < j → edgeDist p vs j < edgeDist p vs k) ∧
        (∀ k, k < n → edgeDist p vs j ≤ edgeDist p vs k) := by
    intro n
    induction n with
    | zero => omega
    | succ n ih =>
      intro _
      rcases Nat.eq_zero_or_pos n with h0 | hpos
      · subst h0
        refine ⟨0, Nat.zero_lt_one, ?_, by omega, ?_⟩
        · simp [List.range_succ, List.range_zero, edgeStep]
        · intro k hk
          interval_cases k
          exact le_refl _
      · obtain ⟨j, hj, hfold, hfirst, hmin⟩ := ih hpos
        rw [List.range_succ, List.foldl_append, hfold]
        simp only [List.foldl_cons, List.foldl_nil]
        by_cases hlt : edgeDist p vs n < edgeDist p vs j
        · refine ⟨n, by omega, ?_, ?_, ?_⟩
          · simp [edgeStep, if_pos hlt]
          · intro k hk
            exact lt_of_lt_of_le hlt (hmin k hk)
          · intro k hk
            rcases Nat.lt_succ_iff_lt_or_eq.mp hk with hcase | hcase
            · exact le_of_lt (lt_of_lt_of_le hlt (hmin k hcase))
            · subst hcase
              exact le_refl _
        · refine ⟨j, by omega, ?_, hfirst, ?_⟩
          · simp [edgeStep, if_neg hlt]
          · intro k hk
            rcases Nat.lt_succ_iff_lt_or_eq.mp hk with hcase | hcase
            · exact hmin k hcase
            · subst hcase
              exact not_lt.mp hlt
  exact key vs.length hn

theorem foldEdges_keepAux (p : Pt ℝ) (vs : List (Pt ℝ)) (m : ℝ) (idx : ℕ) (cp : Pt ℝ)
    (l : List ℕ) (h : ∀ k ∈ l, ¬ edgeDist p vs k < m) :
    l.foldl (edgeStep p vs) (some (m, idx, cp)) = some (m, idx, cp) := by
  induction l with
  | nil => rfl
  | cons k ks ih =>
    simp only [List.foldl_cons]
    rw [show edgeStep p vs (some (m, idx, cp)) k = some (m, idx, cp) by
      simp [edgeStep, if_neg (h k (by simp))]]
    exact ih fun k' hk' => h k' (by simp [hk'])

theorem foldEdges_head_zero (p : Pt ℝ) (vs : List (Pt ℝ)) (hvs : vs ≠ [])
    (h0 : edgeDist p vs 0 = 0) (hnn : ∀ k, 0 ≤ edgeDist p vs k) :
    foldEdges p vs = some (0, 1, edgeProj p vs 0) := by
  obtain ⟨n, hn⟩ : ∃ n, vs.length = n + 1 := by
    cases vs with
    | nil => exact absurd rfl hvs
    | cons q qs => exact ⟨qs.length, rfl⟩
  unfold foldEdges
  rw [hn, List.range_succ_eq_map]
  simp only [List.foldl_cons]
  rw [show edgeStep p vs none 0 = some (0, 1, edgeProj p vs 0) by simp [edgeStep, h0]]
  exact foldEdges_keepAux p vs 0 1 (edgeProj p vs 0) _
    fun k _ => not_lt.mpr (hnn k)

theorem stateInv_init : stateInv initState := by
  refine ⟨?_, Or.inl rfl, fun _ => ⟨rfl, rfl⟩⟩
  intro h
  simp [initState] at h

theorem isEmpty_false_of_ne_nil {β : Type} (l : List β) (h : l ≠ []) :
    l.isEmpty = false := by
  cases hq : l with
  | nil => exact absurd hq h
  | cons a t => rfl

theorem stepToggle_on (st : MapState ℝ) (hd : st.isDrawing = false) :
    stepToggle st = { st with isDrawing := true, cornerText := "1", points := [] } := by
  unfold stepToggle
  rw [hd, if_neg Bool.false_ne_true]

theorem stepToggle_off (st : MapState ℝ) (hd : st.isDrawing = true) :
    stepToggle st = { st with isDrawing := false } := by
  unfold stepToggle
  rw [hd, if_pos rfl]

theorem stepClick_not_drawing (st : MapState ℝ) (p : Pt ℝ) (hd : st.isDrawing = false) :
    stepClick st p = st := by
  unfold stepClick
  rw [hd, if_neg Bool.false_ne_true]

theorem stepClick_nil (st : MapState ℝ) (p : Pt ℝ) (hd : st.isDrawing = true)
    (hDI : st.drawnItems = []) :
    stepClick st p =
      { st with points := st.points ++ [p], undoStack := st.undoStack ++ [UndoItem.point p]
                redoStack := [], drawnItems := [DrawnLayer.polyLayer [p]], cornerText := "1" } := by
  unfold stepClick
  rw [hd, if_pos rfl, hDI]

theorem stepClick_cons_big (st : MapState ℝ) (p : Pt ℝ) (L : DrawnLayer ℝ)
    (rest : List (DrawnLayer ℝ)) (hd : st.isDrawing = true) (hDI : st.drawnItems = L :: rest)
    (hlen : 2 < (st.points ++ [p]).length) :
    stepClick st p =
      { st with points := st.points ++ [p], undoStack := st.undoStack ++ [UndoItem.point p]
                redoStack := [], drawnItems := L.setRing (st.points ++ [p]) :: rest
                areaSize := geodesicArea (st.points ++ [p])
                cornerText := toString (st.points ++ [p]).length } := by
  unfold stepClick
  rw [hd, if_pos rfl, hDI]
  dsimp only
  rw [if_pos hlen]

theorem stepClick_cons_small (st : MapState ℝ) (p : Pt ℝ) (L : DrawnLayer ℝ)
    (rest : List (DrawnLayer ℝ)) (hd : st.isDrawing = true) (hDI : st.drawnItems = L :: rest)
    (hlen : ¬2 < (st.points ++ [p]).length) :
    stepClick st p =
      { st with points := st.points ++ [p], undoStack := st.undoStack ++ [UndoItem.point p]
                redoStack := [], drawnItems := L.setRing (st.points ++ [p]) :: rest
                cornerText := "2" } := by
  unfold stepClick
  rw [hd, if_pos rfl, hDI]
  dsimp only
  rw [if_neg hlen]

theorem stepUndo_empty (st : MapState ℝ) (hp : st.points = []) : stepUndo st = st := by
  unfold stepUndo
  rw [hp]
  rfl

theorem stepUndo_nil (st : MapState ℝ) (hp : st.points ≠ []) (hDI : st.drawnItems = []) :
    stepUndo st =
      { st with points := st.points.dropLast
                redoStack := st.redoStack ++ [st.points.getLastD ⟨0, 0⟩] } := by
  unfold stepUndo
  rw [isEmpty_false_of_ne_nil st.points hp, if_neg Bool.false_ne_true, hDI]

theorem stepUndo_cons_big (st : MapState ℝ) (L : DrawnLayer ℝ) (rest : List (DrawnLayer ℝ))
    (hp : st.points ≠ []) (hDI : st.drawnItems = L :: rest)
    (hlen : 2 < st.points.dropLast.length) :
    stepUndo st =
      { st with points := st.points.dropLast
                redoStack := st.redoStack ++ [st.points.getLastD ⟨0, 0⟩]
                drawnItems := L.setRing st.points.dropLast :: rest
                areaSize := geodesicArea st.points.dropLast } := by
  unfold stepUndo
  rw [isEmpty_false_of_ne_nil st.points hp, if_neg Bool.false_ne_true, hDI]
  dsimp only
  rw [if_pos hlen]

theorem stepUndo_cons_small (st : MapState ℝ) (L : DrawnLayer ℝ) (rest : List (DrawnLayer ℝ))
    (hp : st.points ≠ []) (hDI : st.drawnItems = L :: rest)
    (hlen : ¬2 < st.points.dropLast.length) :
    stepUndo st =
      { st with points := st.points.dropLast
                redoStack := st.redoStack ++ [st.points.getLastD ⟨0, 0⟩]
                drawnItems := L.setRing st.points.dropLast :: rest
                areaSize := 0 } := by
  unfold stepUndo
  rw [isEmpty_false_of_ne_nil st.points hp, if_neg Bool.false_ne_true, hDI]
  dsimp only
  rw [if_neg hlen]

theorem stepRedo_empty (st : MapState ℝ) (hr : st.redoStack = []) : stepRedo st = st := by
  unfold stepRedo
  rw [hr]
  rfl

theorem stepRedo_nil (st : MapState ℝ) (hr : st.redoStack ≠ []) (hDI : st.drawnItems = []) :
    stepRedo st =
      { st with redoStack := st.redoStack.dropLast
                points := st.points ++ [st.redoStack.getLastD ⟨0, 0⟩] } := by
  unfold stepRedo
  rw [isEmpty_false_of_ne_nil st.redoStack hr, if_neg Bool.false_ne_true, hDI]

theorem stepRedo_cons (st : MapState ℝ) (L : DrawnLayer ℝ) (rest : List (DrawnLayer ℝ))
    (hr : st.redoStack ≠ []) (hDI : st.drawnItems = L :: rest) :
    stepRedo st =
      { st with redoStack := st.redoStack.dropLast
                points := st.points ++ [st.redoStack.getLastD ⟨0, 0⟩]
                drawnItems := L.setRing (st.points ++ [st.redoStack.getLastD ⟨0, 0⟩]) :: rest
                areaSize := geodesicArea (st.points ++ [st.redoStack.getLastD ⟨0, 0⟩]) } := by
  unfold stepRedo
  rw [isEmpty_false_of_ne_nil st.redoStack hr, if_neg Bool.false_ne_true, hDI]

theorem stepDrag_nil (st : MapState ℝ) (i : ℕ) (p : Pt ℝ) (hDI : st.drawnItems = []) :
    stepDrag st i p = st := by
  unfold stepDrag
  rw [hDI]

theorem stepDrag_cons (st : MapState ℝ) (i : ℕ) (p : Pt ℝ) (L : DrawnLayer ℝ)
    (rest : List (DrawnLayer ℝ)) (hDI : st.drawnItems = L :: rest) :
    stepDrag st i p =
      { st with drawnItems := L.setRing (L.ring.set i p) :: rest
                areaSize := geodesicArea (L.ring.set i p)
                points := L.ring.set i p } := by
  unfold stepDrag
  rw [hDI]

theorem stepEdgeClick_drawing (st : MapState ℝ) (p : Pt ℝ) (hd : st.isDrawing = true) :
    stepEdgeClick st p = st := by
  unfold stepEdgeClick
  rw [hd, if_pos rfl]

theorem stepEdgeClick_nil (st : MapState ℝ) (p : Pt ℝ) (hd : st.isDrawing = false)
    (hDI : st.drawnItems = []) : stepEdgeClick st p = st := by
  unfold stepEdgeClick
  rw [hd, if_neg Bool.false_ne_true, hDI]

theorem stepEdgeClick_none (st : MapState ℝ) (p : Pt ℝ) (L : DrawnLayer ℝ)
    (rest : List (DrawnLayer ℝ)) (hd : st.isDrawing = false) (hDI : st.drawnItems = L :: rest)
    (hF : foldEdges p L.ring = none) : stepEdgeClick st p = st := by
  unfold stepEdgeClick
  rw [hd, if_neg Bool.false_ne_true, hDI]
  dsimp only
  rw [hF]

theorem stepEdgeClick_far (st : MapState ℝ) (p : Pt ℝ) (L : DrawnLayer ℝ)
    (rest : List (DrawnLayer ℝ)) (m : ℝ) (idx : ℕ) (cp : Pt ℝ) (hd : st.isDrawing = false)
    (hDI : st.drawnItems = L :: rest) (hF : foldEdges p L.ring = some (m, idx, cp))
    (hm : ¬m < 20) : stepEdgeClick st p = st := by
  unfold stepEdgeClick
  rw [hd, if_neg Bool.false_ne_true, hDI]
  dsimp only
  rw [hF]
  dsimp only
  rw [if_neg hm]

theorem stepEdgeClick_insert (st : MapState ℝ) (p : Pt ℝ) (L : DrawnLayer ℝ)
    (rest : List (DrawnLayer ℝ)) (m : ℝ) (idx : ℕ) (cp : Pt ℝ) (hd : st.isDrawing = false)
    (hDI : st.drawnItems = L :: rest) (hF : foldEdges p L.ring = some (m, idx, cp))
    (hm : m < 20) :
    stepEdgeClick st p =
      { st with drawnItems := L.setRing (L.ring.insertIdx idx cp) :: rest
                points := L.ring.insertIdx idx cp
                areaSize := geodesicArea (L.ring.insertIdx idx cp)
                cornerText := toString (L.ring.insertIdx idx cp).length } := by
  unfold stepEdgeClick
  rw [hd, if_neg Bool.false_ne_true, hDI]
  dsimp only
  rw [hF]
  dsimp only
  rw [if_pos hm]

theorem stepClear_eq (st : MapState ℝ) :
    stepClear st =
      { st with drawnItems := [], points := [], undoStack := [], redoStack := []
                areaSize := 0, cornerText := "0" } := rfl

theorem stateInv_step (st : MapState ℝ) (op : Op) (h : stateInv st) :
    stateInv (stepOp st op) := by
  obtain ⟨hA, hB, hE⟩ := h
  cases op with
  | toggle =>
    show stateInv (stepToggle st)
    rcases Bool.eq_false_or_eq_true st.isDrawing with hd | hd
    · rw [stepToggle_off st hd]
      exact ⟨hA, hB, hE⟩
    · rw [stepToggle_on st hd]
      refine ⟨?_, hB, fun he => ⟨rfl, (hE he).2⟩⟩
      intro h3
      simp at h3
  | click p =>
    show stateInv (stepClick st p)
    rcases Bool.eq_false_or_eq_true st.isDrawing with hd | hd
    · cases hDI : st.drawnItems with
      | nil =>
        obtain ⟨hp, _⟩ := hE hDI
        rw [stepClick_nil st p hd hDI]
        refine ⟨?_, hB, fun habs => by simp at habs⟩
        intro h3
        rw [hp] at h3
        simp at h3
      | cons L rest =>
        by_cases hlen : 2 < (st.points ++ [p]).length
        · rw [stepClick_cons_big st p L rest hd hDI hlen]
          exact ⟨fun _ => rfl, Or.inr ⟨st.points ++ [p], hlen, rfl⟩,
            fun habs => by simp at habs⟩
        · rw [stepClick_cons_small st p L rest hd hDI hlen]
          refine ⟨?_, hB, fun habs => by simp at habs⟩
          intro h3
          exact absurd h3 hlen
    · rw [stepClick_not_drawing st p hd]
      exact ⟨hA, hB, hE⟩
  | undo =>
    show stateInv (stepUndo st)
    by_cases hp : st.points = []
    · rw [stepUndo_empty st hp]
      exact ⟨hA, hB, hE⟩
    · cases hDI : st.drawnItems with
      | nil => exact absurd (hE hDI).1 hp
      | cons L rest =>
        by_cases hlen : 2 < st.points.dropLast.length
        · rw [stepUndo_cons_big st L rest hp hDI hlen]
          exact ⟨fun _ => rfl, Or.inr ⟨st.points.dropLast, hlen, rfl⟩,
            fun habs => by simp at habs⟩
        · rw [stepUndo_cons_small st L rest hp hDI hlen]
          refine ⟨?_, Or.inl rfl, fun habs => by simp at habs⟩
          intro h3
          exact absurd h3 hlen
  | redo =>
    show stateInv (stepRedo st)
    by_cases hr : st.redoStack = []
    · rw [stepRedo_empty st hr]
      exact ⟨hA, hB, hE⟩
    · cases hDI : st.drawnItems with
      | nil => exact absurd (hE hDI).2 hr
      | cons L rest =>
        rw [stepRedo_cons st L rest hr hDI]
        by_cases hlen : 3 ≤ (st.points ++ [st.redoStack.getLastD ⟨0, 0⟩]).length
        · exact ⟨fun _ => rfl,
            Or.inr ⟨st.points ++ [st.redoStack.getLastD ⟨0, 0⟩], hlen, rfl⟩,
            fun habs => by simp at habs⟩
        · refine ⟨fun _ => rfl, ?_, fun habs => by simp at habs⟩
          exact Or.inl (geodesicArea_short _ (by omega))
  | drag i p =>
    show stateInv (stepDrag st i p)
    cases hDI : st.drawnItems with
    | nil =>
      rw [stepDrag_nil st i p hDI]
      exact ⟨hA, hB, hE⟩
    | cons L rest =>
      rw [stepDrag_cons st i p L rest hDI]
      by_cases hlen : 3 ≤ (L.ring.set i p).length
      · exact ⟨fun _ => rfl, Or.inr ⟨L.ring.set i p, hlen, rfl⟩,
          fun habs => by simp at habs⟩
      · refine ⟨fun _ => rfl, ?_, fun habs => by simp at habs⟩
        exact Or.inl (geodesicArea_short _ (by omega))
  | edgeClick p =>
    show stateInv (stepEdgeClick st p)
    rcases Bool.eq_false_or_eq_true st.isDrawing with hd | hd
    · rw [stepEdgeClick_drawing st p hd]
      exact ⟨hA, hB, hE⟩
    · cases hDI : st.drawnItems with
      | nil =>
        rw [stepEdgeClick_nil st p hd hDI]
        exact ⟨hA, hB, hE⟩
      | cons L rest =>
        cases hF : foldEdges p L.ring with
        | none =>
          rw [stepEdgeClick_none st p L rest hd hDI hF]
          exact ⟨hA, hB, hE⟩
        | some t =>
          obtain ⟨m, idx, cp⟩ := t
          by_cases hm : m < 20
          · rw [stepEdgeClick_insert st p L rest m idx cp hd hDI hF hm]
            by_cases hlen : 3 ≤ (L.ring.insertIdx idx cp).length
            · exact ⟨fun _ => rfl, Or.inr ⟨L.ring.insertIdx idx cp, hlen, rfl⟩,
                fun habs => by simp at habs⟩
            · refine ⟨fun _ => rfl, ?_, fun habs => by simp at habs⟩
              exact Or.inl (geodesicArea_short _ (by omega))
          · rw [stepEdgeClick_far st p L rest m idx cp hd hDI hF hm]
            exact ⟨hA, hB, hE⟩
  | clear =>
    show stateInv (stepClear st)
    rw [stepClear_eq st]
    exact ⟨fun h3 => by simp at h3, Or.inl rfl, fun _ => ⟨rfl, rfl⟩⟩

theorem stateInv_run (ops : List Op) : stateInv (runOps ops) := by
  unfold runOps
  have key : ∀ (l : List Op) (st : MapState ℝ), stateInv st → stateInv (l.foldl stepOp st) := by
    intro l
    induction l with
    | nil => exact fun st h => h
    | cons op rest ih =>
      intro st h
      exact ih _ (stateInv_step st op h)
  exact key ops initState stateInv_init

theorem getLastD_eq_getLast {β : Type} (l : List β) (d : β) (h : l ≠ []) :
    l.getLastD d = l.getLast h := by
  simp [List.getLastD_eq_getLast?, List.getLast?_eq_getLast _ h]

theorem dropLast_append_getLastD {β : Type} (l : List β) (d : β) (h : l ≠ []) :
    l.dropLast ++ [l.getLastD d] = l := by
  rw [getLastD_eq_getLast l d h]
  exact List.dropLast_append_getLast h

theorem stepClick_points (st : MapState ℝ) (p : Pt ℝ) (hd : st.isDrawing = true) :
    (stepClick st p).points = st.points ++ [p] ∧ (stepClick st p).isDrawing = true := by
  cases hDI : st.drawnItems with
  | nil =>
    rw [stepClick_nil st p hd hDI]
    exact ⟨rfl, hd⟩
  | cons L rest =>
    by_cases hlen : 2 < (st.points ++ [p]).length
    · rw [stepClick_cons_big st p L rest hd hDI hlen]
      exact ⟨rfl, hd⟩
    · rw [stepClick_cons_small st p L rest hd hDI hlen]
      exact ⟨rfl, hd⟩

theorem stepUndo_points (st : MapState ℝ) (hp : st.points ≠ []) :
    (stepUndo st).points = st.points.dropLast ∧
    (stepUndo st).redoStack = st.redoStack ++ [st.points.getLastD ⟨0, 0⟩] := by
  cases hDI : st.drawnItems with
  | nil =>
    rw [stepUndo_nil st hp hDI]
    exact ⟨rfl, rfl⟩
  | cons L rest =>
    by_cases hlen : 2 < st.points.dropLast.length
    · rw [stepUndo_cons_big st L rest hp hDI hlen]
      exact ⟨rfl, rfl⟩
    · rw [stepUndo_cons_small st L rest hp hDI hlen]
      exact ⟨rfl, rfl⟩

theorem stepRedo_points (st : MapState ℝ) (hr : st.redoStack ≠ []) :
    (stepRedo st).points = st.points ++ [st.redoStack.getLastD ⟨0, 0⟩] ∧
    (stepRedo st).redoStack = st.redoStack.dropLast := by
  cases hDI : st.drawnItems with
  | nil =>
    rw [stepRedo_nil st hr hDI]
    exact ⟨rfl, rfl⟩
  | cons L rest =>
    rw [stepRedo_cons st L rest hr hDI]
    exact ⟨rfl, rfl⟩

theorem points_after_clicks (qs : List (Pt ℝ)) :
    ∀ st : MapState ℝ, st.isDrawing = true →
      ((qs.map Op.click).foldl stepOp st).points = st.points ++ qs ∧
      ((qs.map Op.click).foldl stepOp st).isDrawing = true := by
  induction qs with
  | nil => exact fun st hd => ⟨by simp, hd⟩
  | cons q qs ih =>
    intro st hd
    simp only [List.map_cons, List.foldl_cons]
    obtain ⟨hpts, hdrw⟩ := stepClick_points st q hd
    obtain ⟨ihpts, ihdrw⟩ := ih (stepOp st (Op.click q)) hdrw
    refine ⟨?_, ihdrw⟩
    rw [ihpts]
    show (stepClick st q).points ++ qs = st.points ++ q :: qs
    rw [hpts]
    simp

/-- C1 (amended).  For every sequence of the user operations, the
displayed area equals the geodesic area of the current vertex list
whenever that list has at least 3 vertices, and it is always either 0
or the geodesic area of some ring of at least 3 vertices; but starting
a new drawing empties the vertex list while leaving the displayed area
unchanged, so immediately after a restart the display can still show
the previous ring's nonzero area with an empty vertex list. -/
theorem claim1_amended (ops : List Op) :
    (3 ≤ (runOps ops).points.length →
      (runOps ops).areaSize = geodesicArea (runOps ops).points) ∧
    ((runOps ops).areaSize = 0 ∨
      ∃ l : List (Pt ℝ), 3 ≤ l.length ∧ (runOps ops).areaSize = geodesicArea l) ∧
    ((runOps ops).isDrawing = false →
      (stepOp (runOps ops) Op.toggle).points = [] ∧
      (stepOp (runOps ops) Op.toggle).areaSize = (runOps ops).areaSize) := by
  obtain ⟨hA, hB, _⟩ := stateInv_run ops
  refine ⟨hA, hB, fun hd => ?_⟩
  show (stepToggle (runOps ops)).points = [] ∧
    (stepToggle (runOps ops)).areaSize = (runOps ops).areaSize
  rw [stepToggle_on _ hd]
  exact ⟨rfl, rfl⟩

/-- C1 counterexample.  After drawing a 3-vertex ring of nonzero
geodesic area, stopping, and starting a new drawing (`opsRestart`),
the vertex list is empty but the displayed area is the previous ring's
nonzero area, not 0 — refuting the claim that the display is 0
whenever fewer than 3 vertices are present, including immediately
after starting a new drawing. -/
theorem claim1_counterexample :
    (runOps opsRestart).points.length < 3 ∧ (runOps opsRestart).areaSize ≠ 0 := by
  constructor
  · show (0 : ℕ) < 3
    decide
  · have harea : (runOps opsRestart).areaSize =
        geodesicArea [⟨90, 0⟩, ⟨0, 0⟩, ⟨0, 1⟩] := rfl
    have hval : geodesicArea [⟨90, 0⟩, ⟨0, 0⟩, ⟨0, 1⟩] =
        |(0 + (0 - 0) * (Real.pi / 180) *
            (2 + Real.sin (90 * (Real.pi / 180)) + Real.sin (0 * (Real.pi / 180))) +
          (1 - 0) * (Real.pi / 180) *
            (2 + Real.sin (0 * (Real.pi / 180)) + Real.sin (0 * (Real.pi / 180))) +
          (0 - 1) * (Real.pi / 180) *
            (2 + Real.sin (0 * (Real.pi / 180)) + Real.sin (90 * (Real.pi / 180)))) *
          6378137 * 6378137 / 2| := rfl
    have h90 : (90 : ℝ) * (Real.pi / 180) = Real.pi / 2 := by ring
    rw [harea, hval, abs_ne_zero, h90, Real.sin_pi_div_two]
    intro hcon
    simp only [zero_mul, Real.sin_zero] at hcon
    ring_nf at hcon
    nlinarith [Real.pi_pos, hcon]

/-- C1 witness: a concrete run (draw a triangle, stop) at which the
amended claim's hypotheses all hold and its conclusions evaluate. -/
theorem claim1_witness :
    3 ≤ (runOps opsTriangle).points.length ∧
    (runOps opsTriangle).areaSize = geodesicArea (runOps opsTriangle).points ∧
    (runOps opsTriangle).isDrawing = false ∧
    (stepOp (runOps opsTriangle) Op.toggle).points = [] ∧
    (stepOp (runOps opsTriangle) Op.toggle).areaSize = (runOps opsTriangle).areaSize := by
  obtain ⟨hA, _, hC⟩ := claim1_amended opsTriangle
  have hlen : 3 ≤ (runOps opsTriangle).points.length := by
    show 3 ≤ (3 : ℕ)
    decide
  have hdraw : (runOps opsTriangle).isDrawing = false := rfl
  exact ⟨hlen, hA hlen, hdraw, (hC hdraw).1, (hC hdraw).2⟩

/-- C2.  For every non-empty vertex list built by starting a drawing
and appending its points by map clicks: undo removes the last vertex
and pushes it onto the redo stack, and redo pops that vertex and
appends it back, so redo (undo (vertices)) = vertices. -/
theorem claim2_undo_redo (ps : List (Pt ℝ)) (hne : ps ≠ []) :
    (stepOp (runOps (Op.toggle :: ps.map Op.click)) Op.undo).points = ps.dropLast ∧
    (stepOp (runOps (Op.toggle :: ps.map Op.click)) Op.undo).redoStack =
      (runOps (Op.toggle :: ps.map Op.click)).redoStack ++ [ps.getLastD ⟨0, 0⟩] ∧
    (stepOp (stepOp (runOps (Op.toggle :: ps.map Op.click)) Op.undo) Op.redo).points = ps := by
  have hrun : runOps (Op.toggle :: ps.map Op.click) =
      (ps.map Op.click).foldl stepOp (stepToggle initState) := rfl
  have hd0 : (stepToggle initState).isDrawing = true := by
    rw [stepToggle_on initState rfl]
  obtain ⟨hpts, _⟩ := points_after_clicks ps (stepToggle initState) hd0
  have hpts2 : (runOps (Op.toggle :: ps.map Op.click)).points = ps := by
    rw [hrun, hpts, stepToggle_on initState rfl]
    simp
  have hne2 : (runOps (Op.toggle :: ps.map Op.click)).points ≠ [] := by
    rw [hpts2]; exact hne
  obtain ⟨hu1, hu2⟩ := stepUndo_points _ hne2
  show (stepUndo (runOps (Op.toggle :: ps.map Op.click))).points = ps.dropLast ∧
    (stepUndo (runOps (Op.toggle :: ps.map Op.click))).redoStack = _ ∧
    (stepRedo (stepUndo (runOps (Op.toggle :: ps.map Op.click)))).points = ps
  rw [hu1, hpts2]
  refine ⟨rfl, by rw [hu2, hpts2], ?_⟩
  have hrne : (stepUndo (runOps (Op.toggle :: ps.map Op.click))).redoStack ≠ [] := by
    rw [hu2]
    simp
  obtain ⟨hr1, _⟩ := stepRedo_points _ hrne
  rw [hr1, hu1, hu2, hpts2]
  rw [show ((runOps (Op.toggle :: ps.map Op.click)).redoStack ++
      [ps.getLastD ⟨0, 0⟩]).getLastD ⟨0, 0⟩ = ps.getLastD ⟨0, 0⟩ by simp]
  exact dropLast_append_getLastD ps ⟨0, 0⟩ hne

/-- C2 witness: the undo/redo round trip evaluated on the concrete
three-vertex list of `opsTriangle`'s clicks. -/
theorem claim2_witness :
    ([⟨0, 0⟩, ⟨0, 1⟩, ⟨1, 0⟩] : List (Pt ℝ)) ≠ [] ∧
    (stepOp (stepOp (runOps (Op.toggle :: ([⟨0, 0⟩, ⟨0, 1⟩, ⟨1, 0⟩] : List (Pt ℝ)).map Op.click))
      Op.undo) Op.redo).points = [⟨0, 0⟩, ⟨0, 1⟩, ⟨1, 0⟩] := by
  refine ⟨by simp, ?_⟩
  exact (claim2_undo_redo [⟨0, 0⟩, ⟨0, 1⟩, ⟨1, 0⟩] (by simp)).2.2

/-- C8.  Invoking clear (`handleDelete`) from any state resets the
vertex list, both history stacks and the drawn layers to empty, the
displayed area to 0, and the corner count display to 0. -/
theorem claim8_clear (st : MapState ℝ) :
    (stepOp st Op.clear).points = [] ∧
    (stepOp st Op.clear).undoStack = [] ∧
    (stepOp st Op.clear).redoStack = [] ∧
    (stepOp st Op.clear).areaSize = 0 ∧
    (stepOp st Op.clear).cornerText = "0" ∧
    (stepOp st Op.clear).drawnItems = [] :=
  ⟨rfl, rfl, rfl, rfl, rfl, rfl⟩

theorem edgeProj_head_self (v b : Pt ℝ) (tail : List (Pt ℝ))
    (hnd : (b.lat - v.lat) * (b.lat - v.lat) + (b.lng - v.lng) * (b.lng - v.lng) ≠ 0) :
    edgeProj v (v :: b :: tail) 0 = v ∧ edgeDist v (v :: b :: tail) 0 = 0 := by
  have hmod : (0 + 1) % (v :: b :: tail).length = 1 :=
    Nat.mod_eq_of_lt (by simp only [List.length_cons]; omega)
  have hproj : edgeProj v (v :: b :: tail) 0 = v := by
    unfold edgeProj
    rw [hmod]
    show getClosestPointOnSegment v v b = v
    exact closestPoint_self v b hnd
  refine ⟨hproj, ?_⟩
  unfold edgeDist
  rw [hproj]
  exact distanceTo_self v

theorem edgeClick_at_head (st : MapState ℝ) (v b : Pt ℝ) (tail : List (Pt ℝ))
    (restL : List (DrawnLayer ℝ)) (hd : st.isDrawing = false)
    (hDI : st.drawnItems = DrawnLayer.polyLayer (v :: b :: tail) :: restL)
    (hnd : (b.lat - v.lat) * (b.lat - v.lat) + (b.lng - v.lng) * (b.lng - v.lng) ≠ 0) :
    stepEdgeClick st v =
      { st with drawnItems := DrawnLayer.polyLayer (v :: v :: b :: tail) :: restL
                points := v :: v :: b :: tail
                areaSize := geodesicArea (v :: v :: b :: tail)
                cornerText := toString (v :: v :: b :: tail).length } := by
  obtain ⟨hproj, hdist0⟩ := edgeProj_head_self v b tail hnd
  have hfold : foldEdges v (v :: b :: tail) = some (0, 1, v) := by
    have h := foldEdges_head_zero v (v :: b :: tail) (by simp) hdist0
      fun k => distanceTo_nonneg _ _
    rwa [hproj] at h
  rw [stepEdgeClick_insert st v (DrawnLayer.polyLayer (v :: b :: tail)) restL 0 1 v hd hDI
    hfold (by norm_num)]
  rfl

/-- C7 counterexample.  Draw a square, stop, undo once (the redo stack
now holds the removed corner), then edge-click exactly on the first
ring vertex: the click inserts a vertex (the point list grows to 4)
but the redo stack is untouched and stays non-empty — refuting that
the redo stack is empty after every non-redo edit. -/
theorem claim7_counterexample :
    (runOps opsEdgeAfterUndo).redoStack ≠ [] ∧
    (runOps opsEdgeAfterUndo).points =
      [⟨0, 0⟩, ⟨0, 0⟩, ⟨0, 1⟩, ⟨1, 1⟩] := by
  have hpre : runOps opsEdgeAfterUndo =
      stepEdgeClick (runOps [Op.toggle, Op.click ⟨0, 0⟩, Op.click ⟨0, 1⟩, Op.click ⟨1, 1⟩,
        Op.click ⟨1, 0⟩, Op.toggle, Op.undo]) ⟨0, 0⟩ := rfl
  have hstep := edgeClick_at_head
    (runOps [Op.toggle, Op.click ⟨0, 0⟩, Op.click ⟨0, 1⟩, Op.click ⟨1, 1⟩,
      Op.click ⟨1, 0⟩, Op.toggle, Op.undo])
    ⟨0, 0⟩ ⟨0, 1⟩ [⟨1, 1⟩] [] rfl rfl (by norm_num)
  rw [hpre, hstep]
  constructor
  · show (runOps [Op.toggle, Op.click ⟨0, 0⟩, Op.click ⟨0, 1⟩, Op.click ⟨1, 1⟩,
      Op.click ⟨1, 0⟩, Op.toggle, Op.undo]).redoStack ≠ []
    show ([⟨1, 0⟩] : List (Pt ℝ)) ≠ []
    simp
  · rfl

/-- C7 (amended).  The redo stack is cleared by every map-click append
while drawing and by the draw-created completion handler, but an
edge-click (whether or not it inserts a vertex) and a vertex drag
leave the redo stack exactly as it was: edge-click insertion does not
clear it. -/
theorem claim7_amended (st : MapState ℝ) (p q : Pt ℝ) (i : ℕ) (ring : List (Pt ℝ)) :
    (st.isDrawing = true → (stepOp st (Op.click p)).redoStack = []) ∧
    (stepDrawCreated st ring).redoStack = [] ∧
    (stepOp st (Op.edgeClick p)).redoStack = st.redoStack ∧
    (stepOp st (Op.drag i q)).redoStack = st.redoStack := by
  refine ⟨?_, rfl, ?_, ?_⟩
  · intro hd
    show (stepClick st p).redoStack = []
    cases hDI : st.drawnItems with
    | nil =>
      rw [stepClick_nil st p hd hDI]
    | cons L rest =>
      by_cases hlen : 2 < (st.points ++ [p]).length
      · rw [stepClick_cons_big st p L rest hd hDI hlen]
      · rw [stepClick_cons_small st p L rest hd hDI hlen]
  · show (stepEdgeClick st p).redoStack = st.redoStack
    rcases Bool.eq_false_or_eq_true st.isDrawing with hd | hd
    · rw [stepEdgeClick_drawing st p hd]
    · cases hDI : st.drawnItems with
      | nil => rw [stepEdgeClick_nil st p hd hDI]
      | cons L rest =>
        cases hF : foldEdges p L.ring with
        | none => rw [stepEdgeClick_none st p L rest hd hDI hF]
        | some t =>
          obtain ⟨m, idx, cp⟩ := t
          by_cases hm : m < 20
          · rw [stepEdgeClick_insert st p L rest m idx cp hd hDI hF hm]
          · rw [stepEdgeClick_far st p L rest m idx cp hd hDI hF hm]
  · show (stepDrag st i q).redoStack = st.redoStack
    cases hDI : st.drawnItems with
    | nil => rw [stepDrag_nil st i q hDI]
    | cons L rest => rw [stepDrag_cons st i q L rest hDI]

/-- C7 witness: the amended claim applied at a concrete freshly
started drawing state. -/
theorem claim7_witness :
    (runOps [Op.toggle]).isDrawing = true ∧
    (stepOp (runOps [Op.toggle]) (Op.click ⟨0, 0⟩)).redoStack = [] ∧
    (stepDrawCreated (runOps [Op.toggle]) sqRing).redoStack = [] ∧
    (stepOp (runOps [Op.toggle]) (Op.edgeClick ⟨0, 0⟩)).redoStack =
      (runOps [Op.toggle]).redoStack ∧
    (stepOp (runOps [Op.toggle]) (Op.drag 0 ⟨2, 2⟩)).redoStack =
      (runOps [Op.toggle]).redoStack := by
  obtain ⟨h1, h2, h3, h4⟩ := claim7_amended (runOps [Op.toggle]) ⟨0, 0⟩ ⟨2, 2⟩ 0 sqRing
  exact ⟨rfl, h1 rfl, h2, h3, h4⟩

/-- C3.  When not in drawing mode with a drawn ring present, the
edge-click handler finds the first edge index `j` realizing the global
minimum of the distances from the click point to its closest point on
each edge; if that minimal distance is below the 20-meter threshold the
globally closest projected point is spliced in immediately after the
start index of the minimizing edge (growing the corner count by one),
and otherwise the state — in particular the vertex list — is left
unchanged. -/
theorem claim3_edge_click (st : MapState ℝ) (p : Pt ℝ) (L : DrawnLayer ℝ)
    (rest : List (DrawnLayer ℝ)) (vs : List (Pt ℝ)) (hd : st.isDrawing = false)
    (hDI : st.drawnItems = L :: rest) (hvs : L.ring = vs) (hne : vs ≠ []) :
    ∃ j, j < vs.length ∧
      (∀ k, k < j → edgeDist p vs j < edgeDist p vs k) ∧
      (∀ k, k < vs.length → edgeDist p vs j ≤ edgeDist p vs k) ∧
      (edgeDist p vs j < 20 →
        stepOp st (Op.edgeClick p) =
          { st with drawnItems := L.setRing (vs.insertIdx (j + 1) (edgeProj p vs j)) :: rest
                    points := vs.insertIdx (j + 1) (edgeProj p vs j)
                    areaSize := geodesicArea (vs.insertIdx (j + 1) (edgeProj p vs j))
                    cornerText := toString (vs.insertIdx (j + 1) (edgeProj p vs j)).length } ∧
        (vs.insertIdx (j + 1) (edgeProj p vs j)).length = vs.length + 1) ∧
      (¬edgeDist p vs j < 20 → stepOp st (Op.edgeClick p) = st) := by
  obtain ⟨j, hj, hfold, hfirst, hmin⟩ := foldEdges_spec p vs hne
  refine ⟨j, hj, hfirst, hmin, ?_, ?_⟩
  · intro hlt
    constructor
    · show stepEdgeClick st p = _
      rw [stepEdgeClick_insert st p L rest (edgeDist p vs j) (j + 1) (edgeProj p vs j) hd hDI
        (by rw [hvs]; exact hfold) hlt]
      rw [hvs]
    · exact List.length_insertIdx (j + 1) vs hj
  · intro hge
    show stepEdgeClick st p = st
    exact stepEdgeClick_far st p L rest (edgeDist p vs j) (j + 1) (edgeProj p vs j) hd hDI
      (by rw [hvs]; exact hfold) hge

/-- C3 witness: clicking exactly on the first corner of the drawn unit
square (distance 0 to the first edge, below the threshold) inserts the
projected point — the corner itself — right after index 0, giving a
5-vertex ring. -/
theorem claim3_witness :
    stSquare.isDrawing = false ∧
    stSquare.drawnItems = [DrawnLayer.polyLayer sqRing] ∧
    sqRing ≠ [] ∧
    (stepOp stSquare (Op.edgeClick ⟨0, 0⟩)).points =
      [⟨0, 0⟩, ⟨0, 0⟩, ⟨0, 1⟩, ⟨1, 1⟩, ⟨1, 0⟩] := by
  refine ⟨rfl, rfl, by simp [sqRing], ?_⟩
  obtain ⟨j, hj, hfirst, hmin, hins, _⟩ :=
    claim3_edge_click stSquare ⟨0, 0⟩ (DrawnLayer.polyLayer sqRing) [] sqRing rfl rfl rfl
      (by simp [sqRing])
  obtain ⟨_, hdist0⟩ := edgeProj_head_self ⟨0, 0⟩ ⟨0, 1⟩ [⟨1, 1⟩, ⟨1, 0⟩] (by norm_num)
  have hdist0' : edgeDist ⟨0, 0⟩ sqRing 0 = 0 := hdist0
  have hjz : j = 0 := by
    by_contra hne0
    have h0j : 0 < j := Nat.pos_of_ne_zero hne0
    have hlt := hfirst 0 h0j
    rw [hdist0'] at hlt
    have hnn : 0 ≤ edgeDist ⟨0, 0⟩ sqRing j := distanceTo_nonneg _ _
    linarith
  subst hjz
  have hm : edgeDist ⟨0, 0⟩ sqRing 0 < 20 := by
    rw [hdist0']
    norm_num
  obtain ⟨hstep, _⟩ := hins hm
  rw [hstep]
  obtain ⟨hproj, _⟩ := edgeProj_head_self (⟨0, 0⟩ : Pt ℝ) ⟨0, 1⟩ [⟨1, 1⟩, ⟨1, 0⟩] (by norm_num)
  show sqRing.insertIdx 1 (edgeProj ⟨0, 0⟩ sqRing 0) = _
  rw [show edgeProj (⟨0, 0⟩ : Pt ℝ) sqRing 0 = ⟨0, 0⟩ from hproj]
  rfl

theorem foldl_min_field_le (f : Pt ℝ → ℝ) (l : List (Pt ℝ)) (a : ℝ) :
    l.foldl (fun acc r => min acc (f r)) a ≤ a := by
  induction l generalizing a with
  | nil => exact le_refl a
  | cons x xs ih => exact le_trans (ih (min a (f x))) (min_le_left a (f x))

theorem le_foldl_max_field (f : Pt ℝ → ℝ) (l : List (Pt ℝ)) (a : ℝ) :
    a ≤ l.foldl (fun acc r => max acc (f r)) a := by
  induction l generalizing a with
  | nil => exact le_refl a
  | cons x xs ih => exact le_trans (le_max_left a (f x)) (ih (max a (f x)))

theorem ringBounds_south_le_north (q : Pt ℝ) (qs : List (Pt ℝ)) :
    (ringBounds (q :: qs)).south ≤ (ringBounds (q :: qs)).north :=
  le_trans (foldl_min_field_le (fun r => r.lat) qs q.lat)
    (le_foldl_max_field (fun r => r.lat) qs q.lat)

theorem ringBounds_west_le_east (q : Pt ℝ) (qs : List (Pt ℝ)) :
    (ringBounds (q :: qs)).west ≤ (ringBounds (q :: qs)).east :=
  le_trans (foldl_min_field_le (fun r => r.lng) qs q.lng)
    (le_foldl_max_field (fun r => r.lng) qs q.lng)

theorem gridInnerLoop_zero_step (ring : List (Pt ℝ)) (lat east lng0 : ℝ) (hle : lng0 ≤ east) :
    ∀ (fuel : ℕ) (acc : List (Pt ℝ)), gridInnerLoop ring lat east 0 fuel lng0 acc = none := by
  intro fuel
  induction fuel with
  | zero => intro acc; rfl
  | succ n ih =>
    intro acc
    unfold gridInnerLoop
    rw [if_pos hle, add_zero]
    exact ih _

theorem gridOuterLoop_zero_latStep (ring : List (Pt ℝ)) (north west east lngStep lat0 : ℝ)
    (hlat : lat0 ≤ north) :
    ∀ (fuel : ℕ) (acc : List (Pt ℝ)),
      gridOuterLoop ring north west east 0 lngStep fuel lat0 acc = none := by
  intro fuel
  induction fuel with
  | zero => intro acc; rfl
  | succ n ih =>
    intro acc
    unfold gridOuterLoop
    rw [if_pos hlat]
    cases hI : gridInnerLoop ring lat0 east lngStep (n + 1) west acc with
    | none => rfl
    | some acc1 =>
      rw [add_zero]
      exact ih acc1

theorem gridOuterLoop_zero_lngStep (ring : List (Pt ℝ)) (north west east latStep lat0 : ℝ)
    (hlat : lat0 ≤ north) (hwe : west ≤ east) (fuel : ℕ) (acc : List (Pt ℝ)) :
    gridOuterLoop ring north west east latStep 0 fuel lat0 acc = none := by
  cases fuel with
  | zero => rfl
  | succ n =>
    unfold gridOuterLoop
    rw [if_pos hlat, gridInnerLoop_zero_step ring lat0 east west hwe (n + 1) acc]

/-- C4 (code bug).  For every non-empty ring whose bounding box has
zero extent in latitude or longitude (collinear ring or repeated
single point), the grid-sampling loops of `createAnalysisGrid` step
their counter by 0 and never terminate: for every fuel the embedded
loops return `none` — the code never returns the empty grid the claim
specifies. -/
theorem claim4_divergence (ring : List (Pt ℝ)) (q : Pt ℝ) (qs : List (Pt ℝ))
    (hring : ring = q :: qs)
    (hdeg : (ringBounds ring).north = (ringBounds ring).south ∨
      (ringBounds ring).east = (ringBounds ring).west)
    (fuel : ℕ) (density : ℝ) :
    createAnalysisGridFuel fuel (ringBounds ring) ring density = none := by
  have hSN : (ringBounds ring).south ≤ (ringBounds ring).north := by
    rw [hring]; exact ringBounds_south_le_north q qs
  have hWE : (ringBounds ring).west ≤ (ringBounds ring).east := by
    rw [hring]; exact ringBounds_west_le_east q qs
  unfold createAnalysisGridFuel
  rcases hdeg with hNS | hEW
  · have hz : ((ringBounds ring).north - (ringBounds ring).south) / density = 0 := by
      rw [hNS]
      simp
    rw [hz]
    exact gridOuterLoop_zero_latStep ring (ringBounds ring).north (ringBounds ring).west
      (ringBounds ring).east _ (ringBounds ring).south hSN fuel []
  · have hz : ((ringBounds ring).east - (ringBounds ring).west) / density = 0 := by
      rw [hEW]
      simp
    rw [hz]
    exact gridOuterLoop_zero_lngStep ring (ringBounds ring).north (ringBounds ring).west
      (ringBounds ring).east _ (ringBounds ring).south hSN hWE fuel []

/-- C4 witness: the single-point degenerate ring, on which the grid
computation returns `none` (loops without terminating) at fuel 1000. -/
theorem claim4_witness :
    degenerateRing = (⟨0, 0⟩ : Pt ℝ) :: [⟨0, 0⟩, ⟨0, 0⟩] ∧
    (ringBounds degenerateRing).north = (ringBounds degenerateRing).south ∧
    createAnalysisGridFuel 1000 (ringBounds degenerateRing) degenerateRing 5 = none := by
  refine ⟨rfl, ?_, ?_⟩
  · simp [ringBounds, degenerateRing]
  · exact claim4_divergence degenerateRing ⟨0, 0⟩ [⟨0, 0⟩, ⟨0, 0⟩] rfl
      (Or.inl (by simp [ringBounds, degenerateRing])) 1000 5

/-- C5.  For every POST request to the elevation relay: invalid or
missing `points` and a missing `apiKey` give HTTP 400; an upstream
failure or a non-OK upstream status gives HTTP 500 with a
`{message, error}` body; and HTTP 200, carrying the provider payload,
happens only when the provider replied with status OK and a truthy
`results` field. -/
theorem claim5_handler (pts : PointsField ℝ) (key : Option String) (up : Upstream ℝ) :
    (pts.passes = false → (elevationHandler "POST" pts key up).1 = 400) ∧
    (pts.passes = true → ((key.getD "").isEmpty = true →
      (elevationHandler "POST" pts key up).1 = 400)) ∧
    (pts.passes = true → (key.getD "").isEmpty = false →
      (∀ msg, up = Upstream.netFailure msg →
        (elevationHandler "POST" pts key up).1 = 500 ∧
        ∃ a b, (elevationHandler "POST" pts key up).2 = RespBody.msgErr a b) ∧
      (∀ s rs em, up = Upstream.reply s rs em → s ≠ "OK" →
        (elevationHandler "POST" pts key up).1 = 500 ∧
        ∃ a b, (elevationHandler "POST" pts key up).2 = RespBody.msgErr a b)) ∧
    ((elevationHandler "POST" pts key up).1 = 200 →
      ∃ l rs em, pts = PointsField.array l ∧ l ≠ [] ∧
        up = Upstream.reply "OK" (some rs) em ∧
        (elevationHandler "POST" pts key up).2 = RespBody.payload "OK" (some rs) em) := by
  refine ⟨?_, ?_, ?_, ?_⟩
  · intro hfail
    cases pts with
    | missing => rfl
    | notArray => rfl
    | array l =>
      cases l with
      | nil => rfl
      | cons x t => simp [PointsField.passes] at hfail
  · intro hpass hkey
    cases pts with
    | missing => simp [PointsField.passes] at hpass
    | notArray => simp [PointsField.passes] at hpass
    | array l =>
      cases l with
      | nil => simp [PointsField.passes] at hpass
      | cons x t => simp [elevationHandler, hkey]
  · intro hpass hkey
    cases pts with
    | missing => simp [PointsField.passes] at hpass
    | notArray => simp [PointsField.passes] at hpass
    | array l =>
      cases l with
      | nil => simp [PointsField.passes] at hpass
      | cons x t =>
        constructor
        · intro msg hup
          subst hup
          constructor
          · simp [elevationHandler, hkey]
          · exact ⟨"Failed to fetch elevation data", msg, by simp [elevationHandler, hkey]⟩
        · intro s rs em hup hs
          subst hup
          constructor
          · simp [elevationHandler, hkey, hs]
          · exact ⟨"Failed to get elevation data", (em.getD "Unknown error"),
              by simp [elevationHandler, hkey, hs]⟩
  · intro h200
    cases pts with
    | missing => simp [elevationHandler] at h200
    | notArray => simp [elevationHandler] at h200
    | array l =>
      cases l with
      | nil => simp [elevationHandler] at h200
      | cons x t =>
        cases hkb : (key.getD "").isEmpty with
        | true => simp [elevationHandler, hkb] at h200
        | false =>
          cases up with
          | netFailure msg => simp [elevationHandler, hkb] at h200
          | reply s rs em =>
            by_cases hs : s = "OK"
            · subst hs
              cases rs with
              | none => simp [elevationHandler, hkb] at h200
              | some rlist =>
                exact ⟨x :: t, rlist, em, rfl, by simp, rfl,
                  by simp [elevationHandler, hkb]⟩
            · simp [elevationHandler, hkb, hs] at h200

/-- C5 witness: a POST with one point and an API key, against a
provider replying with a non-OK status, yields 500 with a
`{message, error}` body. -/
theorem claim5_witness :
    (PointsField.array [(⟨0, 0⟩ : Pt ℝ)]).passes = true ∧
    ((some "k" : Option String).getD "").isEmpty = false ∧
    (elevationHandler "POST" (PointsField.array [(⟨0, 0⟩ : Pt ℝ)]) (some "k")
      (Upstream.netFailure "connect failed")).1 = 500 ∧
    (∃ a b, (elevationHandler "POST" (PointsField.array [(⟨0, 0⟩ : Pt ℝ)]) (some "k")
      (Upstream.netFailure "connect failed")).2 = RespBody.msgErr a b) := by
  obtain ⟨_, _, h3, _⟩ := claim5_handler (PointsField.array [(⟨0, 0⟩ : Pt ℝ)]) (some "k")
    (Upstream.netFailure "connect failed")
  obtain ⟨hnet, _⟩ := h3 rfl rfl
  obtain ⟨hstatus, hbody⟩ := hnet "connect failed" rfl
  exact ⟨rfl, rfl, hstatus, hbody⟩

theorem fetchChunks_error {α : Type} [LinearOrderedField α] (chunks : List (List (Pt α)))
    (resp : ℕ → ChunkResp α) (k : ℕ)
    (h : ∃ i, i < chunks.length ∧ (resp (k + i)).ok = false) :
    ∃ e, fetchChunks chunks resp k = Except.error e := by
  induction chunks generalizing k with
  | nil =>
    obtain ⟨i, hi, _⟩ := h
    simp at hi
  | cons chunk rest ih =>
    obtain ⟨i, hi, hio⟩ := h
    by_cases h0 : (resp k).ok = true
    · cases i with
      | zero =>
        rw [Nat.add_zero, h0] at hio
        simp at hio
      | succ i2 =>
        have hrec := ih (k + 1) ⟨i2, by simpa using hi,
          by rw [show k + 1 + i2 = k + (i2 + 1) by omega]; exact hio⟩
        obtain ⟨e, he⟩ := hrec
        cases hres : (resp k).results with
        | none => exact ⟨"Invalid elevation data format", by simp [fetchChunks, h0, hres]⟩
        | some elevs => exact ⟨e, by simp [fetchChunks, h0, hres, he]⟩
    · have h0f : (resp k).ok = false := by
        cases hok : (resp k).ok
        · rfl
        · exact absurd hok h0
      exact ⟨"Failed to fetch elevation data", by simp [fetchChunks, h0f]⟩

/-- C6.  If the grid of the analysed ring is computed and some relay
call among the issued chunks returns a non-OK HTTP response, the whole
elevation analysis aborts leaving the component state exactly as it
was: the vertex list, the displayed area, the drawn ring and the
overlay cells are unchanged (the resulting state is the input state). -/
theorem claim6_analysis_abort {α : Type} [LinearOrderedField α] [FloorRing α]
    (st : MapState α) (key : Option String) (fuel : ℕ) (resp : ℕ → ChunkResp α)
    (L : DrawnLayer α) (g : List (Pt α))
    (hL : st.drawnItems.getLast? = some L)
    (hg : createAnalysisGridFuel fuel (ringBounds L.ring) L.ring 5 = some g)
    (hfail : ∃ i, i < (chunked100 g).length ∧ (resp i).ok = false) :
    analyzeElevationModel st key fuel resp = some st := by
  unfold analyzeElevationModel
  rw [hL]
  dsimp only
  by_cases hkb : (key.getD "").isEmpty = true
  · rw [if_pos hkb]
  · rw [if_neg hkb, hg]
    dsimp only
    obtain ⟨e, he⟩ := fetchChunks_error (chunked100 g) resp 0
      (by
        obtain ⟨i, hi, hio⟩ := hfail
        exact ⟨i, hi, by simpa using hio⟩)
    rw [he]

theorem gridInnerLoop_terminates (ring : List (Pt ℝ)) (lat east lngStep : ℝ) :
    ∀ (n : ℕ) (lng : ℝ) (acc : List (Pt ℝ)) (fuel : ℕ),
      east < lng + n * lngStep → n < fuel →
      ∃ out, gridInnerLoop ring lat east lngStep fuel lng acc = some out ∧
        ∃ ext, out = acc ++ ext := by
  intro n
  induction n with
  | zero =>
    intro lng acc fuel hlt hf
    obtain ⟨f, rfl⟩ : ∃ f, fuel = f + 1 := ⟨fuel - 1, by omega⟩
    refine ⟨acc, ?_, [], by simp⟩
    unfold gridInnerLoop
    rw [if_neg (not_le.mpr (by push_cast at hlt; linarith))]
  | succ n ih =>
    intro lng acc fuel hlt hf
    obtain ⟨f, rfl⟩ : ∃ f, fuel = f + 1 := ⟨fuel - 1, by omega⟩
    by_cases hle : lng ≤ east
    · obtain ⟨out, hout, ext, hext⟩ := ih (lng + lngStep)
        (acc ++ if isPointInPolygon ⟨lat, lng⟩ ring then [⟨lat, lng⟩] else []) f
        (by push_cast at hlt ⊢; linarith) (by omega)
      refine ⟨out, ?_, (if isPointInPolygon ⟨lat, lng⟩ ring then [⟨lat, lng⟩] else []) ++ ext,
        by rw [hext]; simp⟩
      unfold gridInnerLoop
      rw [if_pos hle]
      exact hout
    · refine ⟨acc, ?_, [], by simp⟩
      unfold gridInnerLoop
      rw [if_neg hle]

theorem gridOuterLoop_terminates (ring : List (Pt ℝ)) (north west east latStep lngStep : ℝ)
    (m : ℕ) (hEm : east < west + m * lngStep) :
    ∀ (n : ℕ) (lat : ℝ) (acc : List (Pt ℝ)) (fuel : ℕ),
      north < lat + n * latStep → m + n < fuel →
      ∃ out, gridOuterLoop ring north west east latStep lngStep fuel lat acc = some out ∧
        ∃ ext, out = acc ++ ext := by
  intro n
  induction n with
  | zero =>
    intro lat acc fuel hlt hf
    obtain ⟨f, rfl⟩ : ∃ f, fuel = f + 1 := ⟨fuel - 1, by omega⟩
    refine ⟨acc, ?_, [], by simp⟩
    unfold gridOuterLoop
    rw [if_neg (not_le.mpr (by push_cast at hlt; linarith))]
  | succ n ih =>
    intro lat acc fuel hlt hf
    obtain ⟨f, rfl⟩ : ∃ f, fuel = f + 1 := ⟨fuel - 1, by omega⟩
    by_cases hle : lat ≤ north
    · obtain ⟨acc1, hacc1, ext1, hext1⟩ := gridInnerLoop_terminates ring lat east lngStep m
        west acc (f + 1) hEm (by omega)
      obtain ⟨out, hout, ext2, hext2⟩ := ih (lat + latStep) acc1 f
        (by push_cast at hlt ⊢; linarith) (by omega)
      refine ⟨out, ?_, ext1 ++ ext2, by rw [hext2, hext1]; simp⟩
      unfold gridOuterLoop
      rw [if_pos hle, hacc1]
      exact hout
    · refine ⟨acc, ?_, [], by simp⟩
      unfold gridOuterLoop
      rw [if_neg hle]

theorem gridLoops_nonempty (ring : List (Pt ℝ)) (north west east latStep lngStep : ℝ)
    (m n fuel : ℕ) (south : ℝ)
    (hSN : south ≤ north) (hWE : west ≤ east)
    (hlngnn : 0 ≤ lngStep) (hlatnn : 0 ≤ latStep)
    (hEm : east < west + m * lngStep) (hNn : north < south + n * latStep)
    (hfuel : m + n + 1 < fuel)
    (hin : isPointInPolygon ⟨south, west⟩ ring = true) :
    ∃ g, gridOuterLoop ring north west east latStep lngStep fuel south [] = some g ∧
      g ≠ [] := by
  obtain ⟨f, rfl⟩ : ∃ f, fuel = f + 1 := ⟨fuel - 1, by omega⟩
  obtain ⟨f2, hf2⟩ : ∃ f2, f + 1 = f2 + 1 + 1 := ⟨f - 1, by omega⟩
  have hinner1 : gridInnerLoop ring south east lngStep (f + 1) west [] =
      gridInnerLoop ring south east lngStep (f2 + 1) (west + lngStep) [⟨south, west⟩] := by
    rw [hf2]
    unfold gridInnerLoop
    rw [if_pos hWE, hin]
    rfl
  obtain ⟨out1, hout1, ext1, hext1⟩ := gridInnerLoop_terminates ring south east lngStep m
    (west + lngStep) [⟨south, west⟩] (f2 + 1) (by nlinarith) (by omega)
  obtain ⟨out, hout, ext2, hext2⟩ := gridOuterLoop_terminates ring north west east latStep
    lngStep m hEm n (south + latStep) out1 f (by linarith) (by omega)
  refine ⟨out, ?_, ?_⟩
  · unfold gridOuterLoop
    rw [if_pos hSN, hinner1, hout1]
    exact hout
  · rw [hext2, hext1]
    simp

theorem grid_sq5_some :
    ∃ g, createAnalysisGridFuel 200 (ringBounds sq5Ring) sq5Ring 5 = some g ∧ g ≠ [] := by
  have hb : ringBounds sq5Ring = ⟨0, 5, 0, 5⟩ := by
    simp [ringBounds, sq5Ring]
  rw [hb]
  unfold createAnalysisGridFuel
  dsimp only
  have hstep : ((5 : ℝ) - 0) / 5 = 1 := by norm_num
  rw [hstep]
  exact gridLoops_nonempty sq5Ring 5 0 5 1 1 6 6 200 0 (by norm_num) (by norm_num)
    (by norm_num) (by norm_num) (by push_cast; norm_num) (by push_cast; norm_num)
    (by norm_num)
    (by norm_num [isPointInPolygon, sq5Ring, List.range_succ])

/-- C6 witness: the analysis of the drawn 5-degree square against a
relay that answers HTTP 500 issues at least one chunk call, aborts,
and returns the state unchanged. -/
theorem claim6_witness :
    ∃ g, createAnalysisGridFuel 200 (ringBounds (DrawnLayer.polyLayer sq5Ring).ring)
        (DrawnLayer.polyLayer sq5Ring).ring 5 = some g ∧
      0 < (chunked100 g).length ∧
      (respAllFail 0).ok = false ∧
      analyzeElevationModel stAnalysis (some "k") 200 respAllFail = some stAnalysis := by
  obtain ⟨g, hg, hne⟩ := grid_sq5_some
  have hchunks : 0 < (chunked100 g).length := by
    cases g with
    | nil => exact absurd rfl hne
    | cons x xs =>
      unfold chunked100
      simp
  refine ⟨g, hg, hchunks, rfl, ?_⟩
  exact claim6_analysis_abort stAnalysis (some "k") 200 respAllFail
    (DrawnLayer.polyLayer sq5Ring) g rfl hg ⟨0, hchunks, rfl⟩

/-- C9 counterexample.  The pair (`"#zzzzzz"`, `"#ffffff"`) is not a
pair of valid hex color strings — the first has malformed hex digits —
yet the interpolation does not return the fallback `"#ff0000"`: the
guard only tests for missing/non-string/falsy values, the malformed
channels parse to `NaN`, and the result is the non-hex string
`"#NaNNaNNaN"`. -/
theorem claim9_counterexample :
    ColorUtils.interpolateColor (some "#zzzzzz") (some "#ffffff") ((1 : ℚ) / 2) =
      "#NaNNaNNaN" ∧ "#NaNNaNNaN" ≠ "#ff0000" :=
  ⟨rfl, by decide⟩

/-- C9 (amended).  The fallback is only guaranteed for inputs caught
by the guard: whenever one of the two colors is missing, a non-string
value, or the empty string, the function returns `"#ff0000"` for every
interpolation ratio.  Valid-looking non-empty strings with malformed
hex digits are NOT caught and can produce `"#NaNNaNNaN"` instead. -/
theorem claim9_amended {α : Type} [LinearOrderedField α] [FloorRing α]
    (c1 c2 : Option String) (t : α)
    (h : (jsFalsyStr c1 || jsFalsyStr c2) = true) :
    ColorUtils.interpolateColor c1 c2 t = "#ff0000" := by
  unfold ColorUtils.interpolateColor
  rw [if_pos h]

/-- C9 witness: a missing first color (e.g. `undefined` in JS) makes
the guard fire and the fallback is returned. -/
theorem claim9_witness :
    (jsFalsyStr (none : Option String) || jsFalsyStr (some "#ffffff")) = true ∧
      ColorUtils.interpolateColor (none : Option String) (some "#ffffff") (0 : ℚ) =
        "#ff0000" :=
  ⟨rfl, claim9_amended (none : Option String) (some "#ffffff") (0 : ℚ) rfl⟩

/-- C10.  The `interpolateColor` exported from the color utility
module and the copy defined locally inside the `Map` component are
extensionally equal: on every pair of inputs and every interpolation
ratio they return the same string.  The two source texts are identical
line for line, so the two embeddings agree definitionally. -/
theorem claim10_equivalence {α : Type} [LinearOrderedField α] [FloorRing α]
    (c1 c2 : Option String) (t : α) :
    ColorUtils.interpolateColor c1 c2 t = MapLocal.interpolateColor c1 c2 t :=
  rfl

end FieldMeasure
